import Mathlib

/-!
# Verification of the Citus coordinator core

A shallow embedding, in Lean 4, of the two components covered by the spec:

* the reference-table replication engine
  (`src/backend/distributed/utils/reference_table_utils.c`), and
* the distributed executor's scan-state machine
  (`src/backend/distributed/executor/multi_executor.c`).

Catalog tables (`pg_dist_partition`, `pg_dist_shard`,
`pg_dist_shard_placement`, `pg_dist_colocation`, `pg_dist_node`) are
modelled as lists of rows inside a `MetadataState`; catalog-mutating C
helpers become pure state transformers.  Remote effects (shard copies,
placement inserts/updates, replication-factor updates) are recorded in an
explicit event trace so that ordering and counting properties can be
stated.  The success of the per-worker copy transaction
(`SendCommandListToWorkerInSingleTransaction`, an external collaborator)
is a parameter `copyOk : String → Nat → Bool` of the replication
functions; per-worker transactions commit independently of the
coordinator, so an aborted copy leaves earlier workers' effects in place,
which the embedding reflects by threading the state through the loop and
stopping at the failed worker.
-/

namespace Citus

/-! ## Constants (relay_utility.h, shardinterval_utils.h, colocation_utils.h) -/

/-- `FILE_FINALIZED`: placement health state "healthy and queryable". -/
def FILE_FINALIZED : Nat := 1

/-- `INVALID_COLOCATION_ID`. -/
def INVALID_COLOCATION_ID : Nat := 0

/-- `INVALID_PLACEMENT_ID`: passed to `InsertShardPlacementRow` to request a
fresh placement identifier from the sequence. -/
def INVALID_PLACEMENT_ID : Nat := 0

/-- `DISTRIBUTE_BY_NONE`: the partition method of reference tables. -/
def DISTRIBUTE_BY_NONE : Char := 'n'

/-- `DISTRIBUTE_BY_HASH` (used only to build example states). -/
def DISTRIBUTE_BY_HASH : Char := 'h'

/-- `REPLICATION_MODEL_2PC`, written into the new partition row by
`InsertIntoPgDistPartition` during promotion. -/
def REPLICATION_MODEL_2PC : Char := 't'

/-- `InvalidOid`, the distribution-column type recorded for the
reference-table colocation group. -/
def InvalidOid : Nat := 0

/-! ## Data model: catalog rows -/

/-- One row of `pg_dist_partition`. -/
structure PartitionRow where
  logicalRelid : Nat
  partmethod : Char
  colocationid : Nat
  replicationModel : Char
deriving DecidableEq, Repr

/-- One row of `pg_dist_shard` (a `ShardInterval`; min/max bounds carry no
logic in the covered code and are elided). -/
structure ShardRow where
  shardId : Nat
  relationId : Nat
  storageType : Char
deriving DecidableEq, Repr

/-- One row of `pg_dist_shard_placement`. -/
structure PlacementRow where
  placementId : Nat
  shardId : Nat
  shardState : Nat
  shardLength : Nat
  nodeName : String
  nodePort : Nat
deriving DecidableEq, Repr

/-- One row of `pg_dist_colocation`. -/
structure ColocationRow where
  colocationid : Nat
  shardCount : Nat
  replicationFactor : Nat
  distributionColumnType : Nat
deriving DecidableEq, Repr

/-- One row of `pg_dist_node` (a `WorkerNode`). -/
structure WorkerNode where
  workerName : String
  workerPort : Nat
deriving DecidableEq, Repr

/-- The coordinator's catalog state.  `nextPlacementId` and
`nextColocationId` model the id-generating sequences.  `foreignKeys`
models the foreign-key constraint graph `(referencing, referenced)`
consulted (through external helpers) by the promotion precondition. -/
structure MetadataState where
  partitions : List PartitionRow
  shards : List ShardRow
  placements : List PlacementRow
  colocations : List ColocationRow
  workers : List WorkerNode
  foreignKeys : List (Nat × Nat)
  nextPlacementId : Nat
  nextColocationId : Nat
deriving DecidableEq, Repr

/-- The DDL command list built by `CopyShardCommandList(shardInterval,
srcNodeName, srcNodePort)`; its contents are opaque to the covered code,
so it is modelled by its inputs. -/
structure CmdList where
  shardId : Nat
  srcNodeName : String
  srcNodePort : Nat
deriving DecidableEq, Repr

/-- `CopyShardCommandList`: build the copy command list once from the
source placement. -/
def CopyShardCommandList (shardId : Nat) (srcNodeName : String)
    (srcNodePort : Nat) : CmdList :=
  ⟨shardId, srcNodeName, srcNodePort⟩

/-- Observable effects of the replication engine, in program order. -/
inductive Event where
  /-- the `ereport(NOTICE, "Replicating reference table ... to worker ...")`. -/
  | notice (nodeName : String) (nodePort : Nat)
  /-- a successful `SendCommandListToWorkerInSingleTransaction` (the
  worker-local copy transaction committed). -/
  | copy (nodeName : String) (nodePort : Nat) (cmds : CmdList)
  /-- `InsertShardPlacementRow(shardId, placementId, FILE_FINALIZED, 0, n, p)`. -/
  | insertPlacement (shardId placementId : Nat) (nodeName : String) (nodePort : Nat)
  /-- `UpdateShardPlacementState(placementId, FILE_FINALIZED)`; the node
  fields record which worker's placement row is being finalized. -/
  | updatePlacement (placementId : Nat) (nodeName : String) (nodePort : Nat)
  /-- `UpdateColocationGroupReplicationFactor(colocationId, workerCount)`. -/
  | updateReplicationFactor (colocationId workerCount : Nat)
deriving DecidableEq, Repr

/-- The errors (`ereport(ERROR, ...)`) raised by the covered code; each
constructor names the rule in its `errdetail`. -/
inductive CitusError where
  /-- "Relation is not distributed." -/
  | notDistributed (relationName : String)
  /-- "Relation is already a reference table". -/
  | alreadyReference (relationName : String)
  /-- "Relation shard count is not one." -/
  | shardCountNotOne (relationName : String)
  /-- "Relation is part of a foreign constraint." -/
  | foreignConstraint (relationName : String)
  /-- `FinalizedShardPlacement` with `missingOk = false` found no
  finalized placement to copy from. -/
  | noHealthySource
  /-- the copy command list failed against this worker. -/
  | copyFailed (nodeName : String) (nodePort : Nat)
  /-- `linitial` of an empty shard list (unreachable for callers that
  ensure one shard exists). -/
  | missingShard (relationId : Nat)
deriving DecidableEq, Repr

/-- Result of running one stateful operation: an optional error, the
catalog state reached (effects before a failure persist), and the trace
of emitted events. -/
structure RunResult where
  err : Option CitusError
  state : MetadataState
  events : List Event
deriving DecidableEq, Repr

/-! ## Catalog helpers (master_metadata_utility.c / colocation_utils.c,
modelled over `MetadataState`) -/

/-- `get_rel_name`: external catalog lookup, modelled as the oid's
decimal string. -/
def get_rel_name (relationId : Nat) : String := toString relationId

/-- `IsDistributedTable`: the table has a `pg_dist_partition` row. -/
def IsDistributedTable (st : MetadataState) (relationId : Nat) : Bool :=
  (st.partitions.find? (fun r => r.logicalRelid = relationId)).isSome

/-- `PartitionMethod`: partition method from the table's
`pg_dist_partition` row (callers check `IsDistributedTable` first; a
missing row yields a placeholder). -/
def PartitionMethod (st : MetadataState) (relationId : Nat) : Char :=
  match st.partitions.find? (fun r => r.logicalRelid = relationId) with
  | some r => r.partmethod
  | none => ' '

/-- `LoadShardIntervalList`: the table's `pg_dist_shard` rows. -/
def LoadShardIntervalList (st : MetadataState) (relationId : Nat) : List ShardRow :=
  st.shards.filter (fun s => s.relationId = relationId)

/-- `ShardPlacementList`: the shard's `pg_dist_shard_placement` rows. -/
def ShardPlacementList (st : MetadataState) (shardId : Nat) : List PlacementRow :=
  st.placements.filter (fun p => p.shardId = shardId)

/-- Modelled from the spec: `FinalizedShardPlacement(shardId, missingOk =
false)` (in `master_metadata_utility.c`, not under `src/`) picks one
healthy (FINALIZED) source placement of the shard and errors when none
exists ("fail with NoHealthySource if none exists"). -/
def FinalizedShardPlacement (st : MetadataState) (shardId : Nat) :
    Option PlacementRow :=
  (ShardPlacementList st shardId).find? (fun p => p.shardState = FILE_FINALIZED)

/-- `SearchShardPlacementInList(list, nodeName, nodePort, missingOk)`. -/
def SearchShardPlacementInList (placementList : List PlacementRow)
    (nodeName : String) (nodePort : Nat) : Option PlacementRow :=
  placementList.find? (fun p => p.nodeName = nodeName && p.nodePort = nodePort)

/-- `InsertShardPlacementRow(shardId, placementId, shardState, shardLength,
nodeName, nodePort)`: `INVALID_PLACEMENT_ID` asks for a fresh id from the
sequence; the new row is appended. -/
def InsertShardPlacementRow (shardId placementId shardState shardLength : Nat)
    (nodeName : String) (nodePort : Nat) (st : MetadataState) :
    Nat × MetadataState :=
  let newId := if placementId = INVALID_PLACEMENT_ID then st.nextPlacementId
               else placementId
  (newId,
    { st with
      placements :=
        st.placements ++ [⟨newId, shardId, shardState, shardLength, nodeName, nodePort⟩]
      nextPlacementId := st.nextPlacementId + 1 })

/-- `UpdateShardPlacementState(placementId, shardState)`. -/
def UpdateShardPlacementState (placementId shardState : Nat)
    (st : MetadataState) : MetadataState :=
  { st with
    placements := st.placements.map (fun p =>
      if p.placementId = placementId then { p with shardState := shardState }
      else p) }

/-- Lexicographic strcmp-style order on character lists (by code point). -/
def charListLt : List Char → List Char → Bool
  | _, [] => false
  | [], _ :: _ => true
  | a :: as, b :: bs =>
    if a.toNat < b.toNat then true
    else if b.toNat < a.toNat then false
    else charListLt as bs

/-- `CompareWorkerNodes`: deterministic (name, port) ordering. -/
def WorkerNodeLe (a b : WorkerNode) : Bool :=
  charListLt a.workerName.data b.workerName.data ||
    (a.workerName = b.workerName && a.workerPort ≤ b.workerPort)

/-- `SortList(workerNodeList, CompareWorkerNodes)`: insertion sort by
(name, port). -/
def SortInsert (w : WorkerNode) : List WorkerNode → List WorkerNode
  | [] => [w]
  | v :: vs => if WorkerNodeLe w v then w :: v :: vs else v :: SortInsert w vs

/-- Sort the worker node list deterministically by (name, port). -/
def SortList : List WorkerNode → List WorkerNode
  | [] => []
  | w :: ws => SortInsert w (SortList ws)

/-! ## Reference Table Replicator (reference_table_utils.c) -/

/-- The per-worker loop of `ReplicateShardToAllWorkers`: for each worker
node (in sorted order), search the snapshot `shardPlacementList` taken at
entry; when the worker has no `FILE_FINALIZED` placement, emit the
notice, run the copy command list against the worker in its own
transaction (outcome given by `copyOk`), and on success insert a new
placement row or finalize the existing one.  A failed copy aborts the
operation, keeping the state already reached (earlier workers' effects
were committed independently). -/
def ReplicateToWorkers (copyOk : String → Nat → Bool) (shardId : Nat)
    (cmds : CmdList) (shardPlacementList : List PlacementRow) :
    List WorkerNode → MetadataState → RunResult
  | [], st => ⟨none, st, []⟩
  | w :: ws, st =>
    let nodeName := w.workerName
    let nodePort := w.workerPort
    match SearchShardPlacementInList shardPlacementList nodeName nodePort with
    | some targetPlacement =>
      if targetPlacement.shardState = FILE_FINALIZED then
        ReplicateToWorkers copyOk shardId cmds shardPlacementList ws st
      else if copyOk nodeName nodePort then
        let st1 := UpdateShardPlacementState targetPlacement.placementId
          FILE_FINALIZED st
        let r := ReplicateToWorkers copyOk shardId cmds shardPlacementList ws st1
        ⟨r.err, r.state,
          Event.notice nodeName nodePort :: Event.copy nodeName nodePort cmds ::
            Event.updatePlacement targetPlacement.placementId nodeName nodePort ::
              r.events⟩
      else
        ⟨some (CitusError.copyFailed nodeName nodePort), st,
          [Event.notice nodeName nodePort]⟩
    | none =>
      if copyOk nodeName nodePort then
        let ins := InsertShardPlacementRow shardId INVALID_PLACEMENT_ID
          FILE_FINALIZED 0 nodeName nodePort st
        let r := ReplicateToWorkers copyOk shardId cmds shardPlacementList ws ins.2
        ⟨r.err, r.state,
          Event.notice nodeName nodePort :: Event.copy nodeName nodePort cmds ::
            Event.insertPlacement shardId ins.1 nodeName nodePort :: r.events⟩
      else
        ⟨some (CitusError.copyFailed nodeName nodePort), st,
          [Event.notice nodeName nodePort]⟩

/-- `ReplicateShardToAllWorkers(shardInterval)`: take the placement
snapshot, pick the healthy source placement (error `noHealthySource` when
none), build the copy command list once from it, sort the worker list,
and run the per-worker loop. -/
def ReplicateShardToAllWorkers (copyOk : String → Nat → Bool)
    (shardInterval : ShardRow) (st : MetadataState) : RunResult :=
  let shardId := shardInterval.shardId
  let shardPlacementList := ShardPlacementList st shardId
  match FinalizedShardPlacement st shardId with
  | none => ⟨some CitusError.noHealthySource, st, []⟩
  | some sourceShardPlacement =>
    let cmds := CopyShardCommandList shardId sourceShardPlacement.nodeName
      sourceShardPlacement.nodePort
    let workerNodeList := SortList st.workers
    ReplicateToWorkers copyOk shardId cmds shardPlacementList workerNodeList st

/-- `TableColocationId`: colocation id from the table's partition row. -/
def TableColocationId (st : MetadataState) (relationId : Nat) : Nat :=
  match st.partitions.find? (fun r => r.logicalRelid = relationId) with
  | some r => r.colocationid
  | none => INVALID_COLOCATION_ID

/-- `ColocationId(shardCount, replicationFactor, distributionColumnType)`:
look up an existing colocation group. -/
def ColocationId (st : MetadataState)
    (shardCount replicationFactor distributionColumnType : Nat) : Nat :=
  match st.colocations.find? (fun c =>
      c.shardCount = shardCount && c.replicationFactor = replicationFactor &&
        c.distributionColumnType = distributionColumnType) with
  | some c => c.colocationid
  | none => INVALID_COLOCATION_ID

/-- `CreateColocationGroup`: insert a `pg_dist_colocation` row under a
fresh colocation id from the sequence. -/
def CreateColocationGroup (st : MetadataState)
    (shardCount replicationFactor distributionColumnType : Nat) :
    Nat × MetadataState :=
  let cid := st.nextColocationId
  (cid,
    { st with
      colocations :=
        st.colocations ++ [⟨cid, shardCount, replicationFactor, distributionColumnType⟩]
      nextColocationId := cid + 1 })

/-- `CreateReferenceTableColocationId`: the well-known reference-table
colocation group has shard count 1, replication factor = current worker
count and invalid distribution column type; reuse it when it exists,
create it otherwise. -/
def CreateReferenceTableColocationId (st : MetadataState) : Nat × MetadataState :=
  let shardCount := 1
  let replicationFactor := st.workers.length
  let colocationId := ColocationId st shardCount replicationFactor InvalidOid
  if colocationId = INVALID_COLOCATION_ID then
    CreateColocationGroup st shardCount replicationFactor InvalidOid
  else (colocationId, st)

/-- `DeletePartitionRow(relationId)`. -/
def DeletePartitionRow (relationId : Nat) (st : MetadataState) : MetadataState :=
  { st with partitions := st.partitions.filter (fun r => r.logicalRelid ≠ relationId) }

/-- Modelled from the spec: `DeleteColocationGroupIfNoTablesBelong`
(in `colocation_utils.c`, not under `src/`) deletes the table's "old
colocation-group membership if now empty", i.e. drops the
`pg_dist_colocation` row when no `pg_dist_partition` row still names the
group. -/
def DeleteColocationGroupIfNoTablesBelong (colocationId : Nat)
    (st : MetadataState) : MetadataState :=
  if st.partitions.any (fun r => r.colocationid = colocationId) then st
  else { st with colocations := st.colocations.filter (fun c => c.colocationid ≠ colocationId) }

/-- `DeleteShardRow(shardId)`. -/
def DeleteShardRow (shardId : Nat) (st : MetadataState) : MetadataState :=
  { st with shards := st.shards.filter (fun s => s.shardId ≠ shardId) }

/-- `InsertIntoPgDistPartition(relationId, distributionMethod,
distributionColumn, colocationId, replicationModel)`; the distribution
column is NULL for reference tables and elided. -/
def InsertIntoPgDistPartition (relationId : Nat) (distributionMethod : Char)
    (colocationId : Nat) (replicationModel : Char) (st : MetadataState) :
    MetadataState :=
  { st with partitions :=
      st.partitions ++ [⟨relationId, distributionMethod, colocationId, replicationModel⟩] }

/-- `ShardStorageType`: external `relkind` lookup; ordinary tables map to
table storage `'t'`. -/
def ShardStorageType (relationId : Nat) : Char := 't'

/-- `InsertShardRow(relationId, shardId, storageType, minValue, maxValue)`;
NULL bounds for the reference shard are elided. -/
def InsertShardRow (relationId shardId : Nat) (storageType : Char)
    (st : MetadataState) : MetadataState :=
  { st with shards := st.shards ++ [⟨shardId, relationId, storageType⟩] }

/-- `ConvertToReferenceTableMetadata(relationId, shardId)`: delete the old
partition row, the old colocation group if now empty and the old shard
row, then insert the new reference partition row and the new shard row
under the unchanged shard id.  Runs inside the coordinator transaction,
so the rewrite is all-or-nothing by construction (an error aborts the
whole transaction); the embedding models the committed rewrite as one
pure state transformer. -/
def ConvertToReferenceTableMetadata (relationId shardId : Nat)
    (st : MetadataState) : MetadataState :=
  let currentColocationId := TableColocationId st relationId
  let created := CreateReferenceTableColocationId st
  let newColocationId := created.1
  let shardStorageType := ShardStorageType relationId
  let st1 := DeletePartitionRow relationId created.2
  let st2 := DeleteColocationGroupIfNoTablesBelong currentColocationId st1
  let st3 := DeleteShardRow shardId st2
  let st4 := InsertIntoPgDistPartition relationId DISTRIBUTE_BY_NONE
    newColocationId REPLICATION_MODEL_2PC st3
  InsertShardRow relationId shardId shardStorageType st4

/-- Modelled from the spec: `TableReferenced` (in `multi_utility.c`
foreign-constraint helpers, not under `src/`) — is this table the
referenced side of any foreign-key constraint. -/
def TableReferenced (st : MetadataState) (relationId : Nat) : Bool :=
  st.foreignKeys.any (fun fk => fk.2 = relationId)

/-- Modelled from the spec: `CopyShardForeignConstraintCommandList`
(in `master_repair_shards.c`, not under `src/`) — the commands recreating
the table's outgoing foreign-key constraints; nonempty exactly when the
table references another table. -/
def CopyShardForeignConstraintCommandList (st : MetadataState)
    (relationId : Nat) : List (Nat × Nat) :=
  st.foreignKeys.filter (fun fk => fk.1 = relationId)

/-- `ReplicateSingleShardTableToAllWorkers(relationId)`: reject tables in
any foreign-key relationship, replicate the single shard to all workers,
then rewrite the metadata. -/
def ReplicateSingleShardTableToAllWorkers (copyOk : String → Nat → Bool)
    (relationId : Nat) (st : MetadataState) : RunResult :=
  match LoadShardIntervalList st relationId with
  | [] => ⟨some (CitusError.missingShard relationId), st, []⟩
  | shardInterval :: _ =>
    if CopyShardForeignConstraintCommandList st relationId ≠ [] ||
        TableReferenced st relationId then
      ⟨some (CitusError.foreignConstraint (get_rel_name relationId)), st, []⟩
    else
      let r := ReplicateShardToAllWorkers copyOk shardInterval st
      match r.err with
      | some e => ⟨some e, r.state, r.events⟩
      | none =>
        ⟨none, ConvertToReferenceTableMetadata relationId shardInterval.shardId r.state,
          r.events⟩

/-- `upgrade_to_reference_table(relationId)` (`PromoteToReference`): check
the table is distributed, not already a reference table and has exactly
one shard, then lock and replicate.  Locks are concurrency control with
no effect in this sequential embedding. -/
def upgrade_to_reference_table (copyOk : String → Nat → Bool)
    (relationId : Nat) (st : MetadataState) : RunResult :=
  if ¬ IsDistributedTable st relationId then
    ⟨some (CitusError.notDistributed (get_rel_name relationId)), st, []⟩
  else if PartitionMethod st relationId = DISTRIBUTE_BY_NONE then
    ⟨some (CitusError.alreadyReference (get_rel_name relationId)), st, []⟩
  else if (LoadShardIntervalList st relationId).length ≠ 1 then
    ⟨some (CitusError.shardCountNotOne (get_rel_name relationId)), st, []⟩
  else
    ReplicateSingleShardTableToAllWorkers copyOk relationId st

/-- `ReferenceTableList`: all tables whose partition method is
`DISTRIBUTE_BY_NONE`. -/
def ReferenceTableList (st : MetadataState) : List Nat :=
  (st.partitions.filter (fun r => r.partmethod = DISTRIBUTE_BY_NONE)).map
    (fun r => r.logicalRelid)

/-- `UpdateColocationGroupReplicationFactor(colocationId, replicationFactor)`. -/
def UpdateColocationGroupReplicationFactor (colocationId replicationFactor : Nat)
    (st : MetadataState) : MetadataState :=
  { st with colocations := st.colocations.map (fun c =>
      if c.colocationid = colocationId then
        { c with replicationFactor := replicationFactor }
      else c) }

/-- The per-table loop of `ReplicateAllReferenceTablesToAllNodes`:
replicate each reference table's shard and latch the colocation id of the
first table (the cache-avoidance check `currentColocationId ==
INVALID_COLOCATION_ID`).  Returns the latched colocation id alongside the
run result. -/
def ReplicateAllLoop (copyOk : String → Nat → Bool) :
    List Nat → Nat → MetadataState → RunResult × Nat
  | [], currentColocationId, st => (⟨none, st, []⟩, currentColocationId)
  | referenceTableId :: rest, currentColocationId, st =>
    match LoadShardIntervalList st referenceTableId with
    | [] => (⟨some (CitusError.missingShard referenceTableId), st, []⟩,
        currentColocationId)
    | shardInterval :: _ =>
      let r := ReplicateShardToAllWorkers copyOk shardInterval st
      match r.err with
      | some e => (⟨some e, r.state, r.events⟩, currentColocationId)
      | none =>
        let nextColocationId :=
          if currentColocationId = INVALID_COLOCATION_ID then
            TableColocationId r.state referenceTableId
          else currentColocationId
        let rec1 := ReplicateAllLoop copyOk rest nextColocationId r.state
        (⟨rec1.1.err, rec1.1.state, r.events ++ rec1.1.events⟩, rec1.2)

/-- `ReplicateAllReferenceTablesToAllNodes()`: replicate every reference
table, then update the reference colocation group's replication factor to
the worker count once. -/
def ReplicateAllReferenceTablesToAllNodes (copyOk : String → Nat → Bool)
    (st : MetadataState) : RunResult :=
  let referenceTableList := ReferenceTableList st
  let workerCount := st.workers.length
  let run := ReplicateAllLoop copyOk referenceTableList INVALID_COLOCATION_ID st
  match run.1.err with
  | some e => ⟨some e, run.1.state, run.1.events⟩
  | none =>
    if run.2 ≠ INVALID_COLOCATION_ID then
      ⟨none, UpdateColocationGroupReplicationFactor run.2 workerCount run.1.state,
        run.1.events ++ [Event.updateReplicationFactor run.2 workerCount]⟩
    else ⟨none, run.1.state, run.1.events⟩

/-! ## Distributed executor scan state (multi_executor.c) -/

/-- A result row, as read back from a task file. -/
abbrev Row := List String

/-- A `Task`: one unit of per-shard work (fields used by `CitusExecScan`). -/
structure Task where
  taskId : Nat
  jobId : Nat
deriving DecidableEq, Repr

/-- A `Job`: the worker job of a multi plan. -/
structure Job where
  jobId : Nat
  taskList : List Task
deriving DecidableEq, Repr

/-- A `MultiPlan` (the part consumed by `CitusExecScan`). -/
structure MultiPlan where
  workerJob : Job
deriving DecidableEq, Repr

/-- `MultiExecutorType`: which distributed executor the plan chose. -/
inductive MultiExecutorType where
  | realTime
  | taskTracker
  | router
deriving DecidableEq, Repr

/-- A `Tuplestorestate`: the spooled rows plus the read cursor of
`tuplestore_gettupleslot`. -/
structure Tuplestorestate where
  rows : List Row
  readPos : Nat
deriving DecidableEq, Repr

/-- `CitusScanState` (the fields used by the scan callbacks). -/
structure CitusScanState where
  multiPlan : MultiPlan
  executorType : MultiExecutorType
  finishedUnderlyingScan : Bool
  tuplestorestate : Option Tuplestorestate
deriving DecidableEq, Repr

/-- The master-side file store: task result files keyed by (jobId,
taskId).  A file that was never written reads back as the empty row
stream. -/
def TaskFiles := Nat → Nat → List Row

/-- Observable effects of the executor scan. -/
inductive ExecEvent where
  /-- `CreateDirectory(MasterJobDirectoryName(jobId))`. -/
  | createDirectory (jobId : Nat)
  /-- `ResourceOwnerRememberJobDirectory(CurrentResourceOwner, jobId)`. -/
  | rememberJobDirectory (jobId : Nat)
  /-- `MultiRealTimeExecute(workerJob)`: the real-time executor ran the
  job's tasks against the workers. -/
  | realTimeExecute (jobId : Nat)
  /-- `MultiTaskTrackerExecute(workerJob)`. -/
  | taskTrackerExecute (jobId : Nat)
  /-- `tuplestore_end(scanState->tuplestorestate)`. -/
  | tuplestoreEnd
  /-- the `elog(WARNING, "unsupported at this point")` in `CitusReScan`. -/
  | warningUnsupported
deriving DecidableEq, Repr

/-- Modelled from the spec: `MultiRealTimeExecute` /
`MultiTaskTrackerExecute` (in `multi_real_time_executor.c` /
`multi_task_tracker_executor.c`, not under `src/`) run every task of the
job against the workers and leave each task's result rows in its task
file under the job directory; `taskResults` gives the rows each task
produces. -/
def ExecuteTasks (taskResults : Task → List Row) (job : Job)
    (files : TaskFiles) : TaskFiles :=
  fun jobId taskId =>
    match job.taskList.find? (fun t => t.jobId = jobId && t.taskId = taskId) with
    | some t => taskResults t
    | none => files jobId taskId

/-- `tuplestore_gettupleslot(tupleStore, true, false, resultSlot)`: read
the row under the cursor and advance, or signal end-of-data with an empty
slot. -/
def TuplestoreGetTuple (ts : Tuplestorestate) : Option Row × Tuplestorestate :=
  match ts.rows.drop ts.readPos with
  | [] => (none, ts)
  | row :: _ => (some row, { ts with readPos := ts.readPos + 1 })

/-- `CitusExecScan(node)`: on the first call, create and register the
job directory, consult the execution strategy (skipping both distributed
executors under `EXEC_FLAG_EXPLAIN_ONLY`), then load every task's result
file of the job into a fresh tuplestore; on every call, return the next
tuple from the tuplestore, or an empty slot when the tuplestore is
exhausted or absent. -/
def CitusExecScan (taskResults : Task → List Row) (explainOnly : Bool)
    (scanState : CitusScanState) (files : TaskFiles) :
    Option Row × CitusScanState × TaskFiles × List ExecEvent :=
  if ¬ scanState.finishedUnderlyingScan then
    let workerJob := scanState.multiPlan.workerJob
    let dirEvents := [ExecEvent.createDirectory workerJob.jobId,
      ExecEvent.rememberJobDirectory workerJob.jobId]
    let afterExec :=
      if explainOnly then (files, ([] : List ExecEvent))
      else if scanState.executorType = MultiExecutorType.realTime then
        (ExecuteTasks taskResults workerJob files,
          [ExecEvent.realTimeExecute workerJob.jobId])
      else if scanState.executorType = MultiExecutorType.taskTracker then
        (ExecuteTasks taskResults workerJob files,
          [ExecEvent.taskTrackerExecute workerJob.jobId])
      else (files, [])
    let files1 := afterExec.1
    let spooledRows :=
      (workerJob.taskList.map (fun t => files1 t.jobId t.taskId)).flatten
    let ts0 : Tuplestorestate := ⟨spooledRows, 0⟩
    let read := TuplestoreGetTuple ts0
    (read.1,
      { scanState with finishedUnderlyingScan := true, tuplestorestate := some read.2 },
      files1, dirEvents ++ afterExec.2)
  else
    match scanState.tuplestorestate with
    | some ts =>
      let read := TuplestoreGetTuple ts
      (read.1, { scanState with tuplestorestate := some read.2 }, files, [])
    | none => (none, scanState, files, [])

/-- `Drain()`: call `CitusExecScan` until it returns an empty slot and
collect the rows.  After the first call the underlying scan is finished
and every further call only advances the tuplestore cursor, so the
remaining rows are exactly the spooled rows past the cursor
(`CitusExecScan_finished_reads` below proves the step behaves that way). -/
def CitusScanDrain (taskResults : Task → List Row) (explainOnly : Bool)
    (scanState : CitusScanState) (files : TaskFiles) :
    List Row × CitusScanState × TaskFiles × List ExecEvent :=
  let first := CitusExecScan taskResults explainOnly scanState files
  match first.1 with
  | none => ([], first.2.1, first.2.2.1, first.2.2.2)
  | some row =>
    match first.2.1.tuplestorestate with
    | some ts =>
      (row :: ts.rows.drop ts.readPos,
        { first.2.1 with tuplestorestate := some ⟨ts.rows, ts.rows.length⟩ },
        first.2.2.1, first.2.2.2)
    | none => ([row], first.2.1, first.2.2.1, first.2.2.2)

/-- `CitusEndScan(node)`: release the tuplestore if present. -/
def CitusEndScan (scanState : CitusScanState) :
    CitusScanState × List ExecEvent :=
  match scanState.tuplestorestate with
  | some _ =>
    ({ scanState with tuplestorestate := none }, [ExecEvent.tuplestoreEnd])
  | none => (scanState, [])

/-- `CitusReScan(node)`: drop the tuplestore reference, mark the
underlying scan finished and warn that re-scanning is unsupported. -/
def CitusReScan (scanState : CitusScanState) :
    CitusScanState × List ExecEvent :=
  ({ scanState with tuplestorestate := none, finishedUnderlyingScan := true },
    [ExecEvent.warningUnsupported])

/-! ## Predicates used by the theorems -/

/-- The logical key of a placement row: the spec's persisted layout keys
placement rows by (shardId, nodeName, nodePort). -/
def pKey (p : PlacementRow) : Nat × String × Nat :=
  (p.shardId, p.nodeName, p.nodePort)

/-- The key of a worker node: (name, port). -/
def wKey (w : WorkerNode) : String × Nat :=
  (w.workerName, w.workerPort)

/-- The worker holds a `FILE_FINALIZED` placement of the shard. -/
def HasFinalizedPlacement (st : MetadataState) (shardId : Nat)
    (nodeName : String) (nodePort : Nat) : Prop :=
  ∃ p ∈ st.placements, p.shardId = shardId ∧ p.nodeName = nodeName ∧
    p.nodePort = nodePort ∧ p.shardState = FILE_FINALIZED

instance (st : MetadataState) (shardId : Nat) (nodeName : String) (nodePort : Nat) :
    Decidable (HasFinalizedPlacement st shardId nodeName nodePort) :=
  List.decidableBEx _ st.placements

/-- Which worker an event addresses. -/
def eventNode : Event → Option (String × Nat)
  | Event.notice n p => some (n, p)
  | Event.copy n p _ => some (n, p)
  | Event.insertPlacement _ _ n p => some (n, p)
  | Event.updatePlacement _ n p => some (n, p)
  | Event.updateReplicationFactor _ _ => none

/-- Which worker's placement row an event mutates. -/
def eventPlacementNode : Event → Option (String × Nat)
  | Event.insertPlacement _ _ n p => some (n, p)
  | Event.updatePlacement _ n p => some (n, p)
  | _ => none

/-- Is this event a shard copy (a committed per-worker copy transaction)? -/
def isCopyEvent : Event → Bool
  | Event.copy _ _ _ => true
  | _ => false

/-- Is this event a replication-factor update? -/
def isReplicationFactorUpdate : Event → Bool
  | Event.updateReplicationFactor _ _ => true
  | _ => false

/-- Every placement-mutating event in the trace is immediately preceded
by a successful copy against the same worker: a placement is never
inserted as, or transitioned to, `FILE_FINALIZED` before the copy command
list ran successfully against that worker. -/
def PlacementPrecededByCopy (events : List Event) : Prop :=
  ∀ pre ev post, events = pre ++ ev :: post →
    ∀ n p, eventPlacementNode ev = some (n, p) →
      ∃ c, pre.getLast? = some (Event.copy n p c)

/-- Loop invariant of `ReplicateToWorkers`: every row of the placement
snapshot taken at entry is still present in the running state under the
same placement id and key, and never loses finalized-ness (rows are only
appended or transitioned to `FILE_FINALIZED`). -/
def SnapTracked (snap : List PlacementRow) (st : MetadataState) : Prop :=
  ∀ r ∈ snap, ∃ r2 ∈ st.placements,
    r2.placementId = r.placementId ∧ r2.shardId = r.shardId ∧
    r2.nodeName = r.nodeName ∧ r2.nodePort = r.nodePort ∧
    (r.shardState = FILE_FINALIZED → r2.shardState = FILE_FINALIZED)

/-! ## Concrete data for the re-scan counterexample -/

/-- A fresh scan state over a one-task job (job 7, task 1). -/
def rescanScan0 : CitusScanState :=
  ⟨⟨⟨7, [⟨1, 7⟩]⟩⟩, MultiExecutorType.realTime, false, none⟩

/-- Worker behavior: every task produces the single row `["a"]`. -/
def rescanResults : Task → List Row := fun _ => [["a"]]

/-- An empty master file store. -/
def rescanFiles0 : TaskFiles := fun _ _ => []

/-- The first full scan of the job. -/
def rescanFirst : List Row × CitusScanState × TaskFiles × List ExecEvent :=
  CitusScanDrain rescanResults false rescanScan0 rescanFiles0

/-- The scan repeated after `CitusReScan`, over the same spooled files. -/
def rescanSecond : List Row × CitusScanState × TaskFiles × List ExecEvent :=
  CitusScanDrain rescanResults false (CitusReScan rescanFirst.2.1).1 rescanFirst.2.2.1

/-! ## Concrete example states for witnesses -/

/-- Copy transactions that always succeed. -/
def exCopyOk : String → Nat → Bool := fun _ _ => true

/-- A single-shard distributed table: relation 10, shard 100. -/
def exShard : ShardRow := ⟨100, 10, 't'⟩

/-- A shard id with no placement at all. -/
def exShardNoSource : ShardRow := ⟨200, 11, 't'⟩

/-- Two workers; shard 100 healthy on w1 only; relation 10 hash
distributed in colocation group 4. -/
def exSt : MetadataState where
  partitions := [⟨10, DISTRIBUTE_BY_HASH, 4, 'c'⟩]
  shards := [⟨100, 10, 't'⟩]
  placements := [⟨1, 100, FILE_FINALIZED, 0, "w1", 1⟩]
  colocations := [⟨4, 1, 1, 7⟩]
  workers := [⟨"w1", 1⟩, ⟨"w2", 2⟩]
  foreignKeys := []
  nextPlacementId := 2
  nextColocationId := 5

/-- Two reference tables (30, 31) sharing colocation group 8, one
worker, both shards healthy on it. -/
def exStRefs : MetadataState where
  partitions := [⟨30, DISTRIBUTE_BY_NONE, 8, 't'⟩, ⟨31, DISTRIBUTE_BY_NONE, 8, 't'⟩]
  shards := [⟨300, 30, 't'⟩, ⟨310, 31, 't'⟩]
  placements := [⟨1, 300, FILE_FINALIZED, 0, "w1", 1⟩,
    ⟨2, 310, FILE_FINALIZED, 0, "w1", 1⟩]
  colocations := [⟨8, 1, 1, 0⟩]
  workers := [⟨"w1", 1⟩]
  foreignKeys := []
  nextPlacementId := 3
  nextColocationId := 9

/-- Tables for the precondition witnesses: 20 is already a reference
table, 21 has two shards, 22 has one shard but a foreign key to 23. -/
def exStPre : MetadataState where
  partitions := [⟨20, DISTRIBUTE_BY_NONE, 4, 'c'⟩, ⟨21, DISTRIBUTE_BY_HASH, 5, 'c'⟩,
    ⟨22, DISTRIBUTE_BY_HASH, 6, 'c'⟩]
  shards := [⟨210, 21, 't'⟩, ⟨211, 21, 't'⟩, ⟨220, 22, 't'⟩]
  placements := []
  colocations := [⟨4, 1, 1, 0⟩, ⟨5, 2, 1, 7⟩, ⟨6, 1, 1, 7⟩]
  workers := [⟨"w1", 1⟩]
  foreignKeys := [(22, 23)]
  nextPlacementId := 1
  nextColocationId := 7

/-! # Theorems -/

/-- Rows of a flattened map are empty when every task file is empty. -/
lemma flatten_map_eq_nil {α β : Type} (l : List α) (f : α → List β)
    (h : ∀ x ∈ l, f x = []) : (l.map f).flatten = [] := by
  induction l with
  | nil => rfl
  | cons a t ih =>
    simp only [List.map_cons, List.flatten_cons, h a (by simp),
      List.nil_append]
    exact ih (fun x hx => h x (by simp [hx]))

/-- Reading one tuple never changes the spooled rows. -/
lemma tuplestoreGetTuple_rows (ts : Tuplestorestate) :
    (TuplestoreGetTuple ts).2.rows = ts.rows := by
  unfold TuplestoreGetTuple
  cases ts.rows.drop ts.readPos <;> rfl

/-- Once the underlying scan is finished, `CitusExecScan` only advances
the tuplestore cursor: no files change and no events are emitted. -/
lemma citusExecScan_finished (taskResults : Task → List Row)
    (explainOnly : Bool) (s : CitusScanState) (files : TaskFiles)
    (h : s.finishedUnderlyingScan = true) :
    CitusExecScan taskResults explainOnly s files =
      match s.tuplestorestate with
      | some ts => ((TuplestoreGetTuple ts).1,
          { s with tuplestorestate := some (TuplestoreGetTuple ts).2 }, files, [])
      | none => (none, s, files, []) := by
  cases hts : s.tuplestorestate <;> simp [CitusExecScan, h, hts]

/-- C7: for every job executed under the explain-only strategy, the scan
makes no worker call — the trace is exactly the directory bookkeeping,
with neither `MultiRealTimeExecute` nor `MultiTaskTrackerExecute`
invoked — and draining the result yields the empty row sequence (the
job's task files were never written, so the spool loads nothing). -/
theorem explainOnly_drain_empty (taskResults : Task → List Row)
    (s : CitusScanState) (files : TaskFiles)
    (hfresh : s.finishedUnderlyingScan = false)
    (hfiles : ∀ t ∈ s.multiPlan.workerJob.taskList, files t.jobId t.taskId = []) :
    (CitusScanDrain taskResults true s files).1 = [] ∧
    (CitusScanDrain taskResults true s files).2.2.2 =
      [ExecEvent.createDirectory s.multiPlan.workerJob.jobId,
       ExecEvent.rememberJobDirectory s.multiPlan.workerJob.jobId] := by
  have hrows := flatten_map_eq_nil s.multiPlan.workerJob.taskList
    (fun t => files t.jobId t.taskId) hfiles
  constructor <;>
    simp [CitusScanDrain, CitusExecScan, hfresh, hrows, TuplestoreGetTuple]

/-- Witness for C7 at a concrete one-task job with an empty file store. -/
theorem explainOnly_drain_empty_witness :
    (CitusScanDrain (fun _ => [["a"]]) true rescanScan0 rescanFiles0).1 = [] ∧
    (CitusScanDrain (fun _ => [["a"]]) true rescanScan0 rescanFiles0).2.2.2 =
      [ExecEvent.createDirectory 7, ExecEvent.rememberJobDirectory 7] :=
  explainOnly_drain_empty (fun _ => [["a"]]) rescanScan0 rescanFiles0
    (by decide) (by decide)

/-- C8 counterexample: with a one-task job whose task produces one row,
the first scan drains `[["a"]]`; re-scanning after `CitusReScan` drains
the empty sequence, not the same row sequence — the claim fails as
stated. -/
theorem citusReScan_cex :
    rescanFirst.1 = [["a"]] ∧ rescanSecond.1 = [] ∧
    rescanFirst.1 ≠ rescanSecond.1 := by
  refine ⟨by decide, by decide, by decide⟩

/-- C8 (amended): re-scanning is not supported.  `CitusReScan` discards
the tuplestore reference, marks the underlying scan finished and emits
the "unsupported at this point" warning, so a subsequent scan of the job
yields the empty row sequence — it re-runs no task and reads no spooled
row, rather than replaying the first scan's rows. -/
theorem citusReScan_drains_empty (taskResults : Task → List Row)
    (explainOnly : Bool) (s : CitusScanState) (files : TaskFiles) :
    (CitusReScan s).2 = [ExecEvent.warningUnsupported] ∧
    (CitusReScan s).1.tuplestorestate = none ∧
    (CitusReScan s).1.finishedUnderlyingScan = true ∧
    CitusScanDrain taskResults explainOnly (CitusReScan s).1 files =
      ([], (CitusReScan s).1, files, []) := by
  refine ⟨rfl, rfl, rfl, ?_⟩
  simp [CitusScanDrain, CitusReScan, CitusExecScan]

/-- C9: teardown is idempotent.  `CitusEndScan` releases the tuplestore
when present (and only then), leaves every other scan-state field alone,
and calling it again returns the same state with no further effect. -/
theorem citusEndScan_idempotent (s : CitusScanState) :
    (CitusEndScan s).1.tuplestorestate = none ∧
    (CitusEndScan s).2 =
      (match s.tuplestorestate with
       | some _ => [ExecEvent.tuplestoreEnd]
       | none => ([] : List ExecEvent)) ∧
    CitusEndScan (CitusEndScan s).1 = ((CitusEndScan s).1, []) ∧
    (CitusEndScan s).1.finishedUnderlyingScan = s.finishedUnderlyingScan ∧
    (CitusEndScan s).1.multiPlan = s.multiPlan ∧
    (CitusEndScan s).1.executorType = s.executorType := by
  cases hts : s.tuplestorestate <;> simp [CitusEndScan, hts]

/-- C10: on its first execution — for every strategy, the explain-only
flag included — the scan creates the job directory and registers it with
the resource owner before the execution strategy is consulted (they are
the first two trace events), and still loads the per-task result files
of the job into the fresh tuplestore. -/
theorem firstScan_creates_directory (taskResults : Task → List Row)
    (explainOnly : Bool) (s : CitusScanState) (files : TaskFiles)
    (hfresh : s.finishedUnderlyingScan = false) :
    ((CitusExecScan taskResults explainOnly s files).2.2.2).take 2 =
      [ExecEvent.createDirectory s.multiPlan.workerJob.jobId,
       ExecEvent.rememberJobDirectory s.multiPlan.workerJob.jobId] ∧
    (∃ ts, (CitusExecScan taskResults explainOnly s files).2.1.tuplestorestate =
        some ts ∧
      ts.rows = (s.multiPlan.workerJob.taskList.map
        (fun t => (CitusExecScan taskResults explainOnly s files).2.2.1
          t.jobId t.taskId)).flatten) ∧
    (CitusExecScan taskResults explainOnly s files).2.1.finishedUnderlyingScan
      = true := by
  refine ⟨by simp [CitusExecScan, hfresh], ?_, by simp [CitusExecScan, hfresh]⟩
  simp only [CitusExecScan, hfresh, Bool.not_eq_true, Bool.false_eq_true,
    not_false_eq_true, if_true, reduceIte]
  exact ⟨_, rfl, tuplestoreGetTuple_rows _⟩

/-- Witness for C10 at a concrete fresh scan state under explain-only. -/
theorem firstScan_creates_directory_witness :
    ((CitusExecScan rescanResults true rescanScan0 rescanFiles0).2.2.2).take 2 =
      [ExecEvent.createDirectory 7, ExecEvent.rememberJobDirectory 7] ∧
    (∃ ts, (CitusExecScan rescanResults true rescanScan0 rescanFiles0).2.1.tuplestorestate =
        some ts ∧
      ts.rows = (rescanScan0.multiPlan.workerJob.taskList.map
        (fun t => (CitusExecScan rescanResults true rescanScan0 rescanFiles0).2.2.1
          t.jobId t.taskId)).flatten) ∧
    (CitusExecScan rescanResults true rescanScan0 rescanFiles0).2.1.finishedUnderlyingScan
      = true :=
  firstScan_creates_directory rescanResults true rescanScan0 rescanFiles0 (by decide)

/-! ## Replication engine: basic lemmas -/

lemma mem_shardPlacementList {st : MetadataState} {sid : Nat} {p : PlacementRow} :
    p ∈ ShardPlacementList st sid ↔ p ∈ st.placements ∧ p.shardId = sid := by
  simp [ShardPlacementList, List.mem_filter]

lemma search_eq_some {l : List PlacementRow} {n : String} {p : Nat}
    {tp : PlacementRow} (h : SearchShardPlacementInList l n p = some tp) :
    tp ∈ l ∧ tp.nodeName = n ∧ tp.nodePort = p := by
  refine ⟨List.mem_of_find?_eq_some h, ?_, ?_⟩ <;>
    · have hp := List.find?_some h
      simp at hp
      tauto

lemma search_eq_none {l : List PlacementRow} {n : String} {p : Nat}
    (h : SearchShardPlacementInList l n p = none) :
    ∀ tp ∈ l, ¬ (tp.nodeName = n ∧ tp.nodePort = p) := by
  intro tp htp hc
  have := List.find?_eq_none.mp h tp htp
  simp at this
  exact this hc.1 hc.2

lemma hasFin_update (pid : Nat) {st : MetadataState} {sid : Nat} {n : String}
    {p : Nat} (h : HasFinalizedPlacement st sid n p) :
    HasFinalizedPlacement (UpdateShardPlacementState pid FILE_FINALIZED st) sid n p := by
  obtain ⟨r, hr, h1, h2, h3, h4⟩ := h
  refine ⟨if r.placementId = pid then { r with shardState := FILE_FINALIZED } else r,
    List.mem_map_of_mem _ hr, ?_⟩
  by_cases hc : r.placementId = pid <;> simp [hc, h1, h2, h3, h4]

lemma hasFin_insert (sid2 pid ss sl : Nat) (n2 : String) (p2 : Nat)
    {st : MetadataState} {sid : Nat} {n : String} {p : Nat}
    (h : HasFinalizedPlacement st sid n p) :
    HasFinalizedPlacement (InsertShardPlacementRow sid2 pid ss sl n2 p2 st).2 sid n p := by
  obtain ⟨r, hr, hrest⟩ := h
  exact ⟨r, by simp [InsertShardPlacementRow, hr], hrest⟩

lemma snapTracked_initial (st : MetadataState) (sid : Nat) :
    SnapTracked (ShardPlacementList st sid) st := by
  intro r hr
  exact ⟨r, (mem_shardPlacementList.mp hr).1, rfl, rfl, rfl, rfl, fun h => h⟩

lemma snapTracked_update (pid : Nat) {snap : List PlacementRow}
    {st : MetadataState} (h : SnapTracked snap st) :
    SnapTracked snap (UpdateShardPlacementState pid FILE_FINALIZED st) := by
  intro r hr
  obtain ⟨r2, hr2, e1, e2, e3, e4, e5⟩ := h r hr
  by_cases hc : r2.placementId = pid
  · refine ⟨{ r2 with shardState := FILE_FINALIZED }, ?_, e1, e2, e3, e4, fun _ => rfl⟩
    have hm := List.mem_map_of_mem
      (fun q => if q.placementId = pid then { q with shardState := FILE_FINALIZED } else q) hr2
    simpa only [if_pos hc] using hm
  · refine ⟨r2, ?_, e1, e2, e3, e4, e5⟩
    have hm := List.mem_map_of_mem
      (fun q => if q.placementId = pid then { q with shardState := FILE_FINALIZED } else q) hr2
    simpa only [if_neg hc] using hm

lemma snapTracked_insert (sid2 pid ss sl : Nat) (n2 : String) (p2 : Nat)
    {snap : List PlacementRow} {st : MetadataState} (h : SnapTracked snap st) :
    SnapTracked snap (InsertShardPlacementRow sid2 pid ss sl n2 p2 st).2 := by
  intro r hr
  obtain ⟨r2, hr2, hrest⟩ := h r hr
  exact ⟨r2, by simp [InsertShardPlacementRow, hr2], hrest⟩

lemma hasFin_update_establish {snap : List PlacementRow} {st : MetadataState}
    (h : SnapTracked snap st) {tp : PlacementRow} (htp : tp ∈ snap) :
    HasFinalizedPlacement (UpdateShardPlacementState tp.placementId FILE_FINALIZED st)
      tp.shardId tp.nodeName tp.nodePort := by
  obtain ⟨r2, hr2, e1, e2, e3, e4, _⟩ := h tp htp
  refine ⟨if r2.placementId = tp.placementId then { r2 with shardState := FILE_FINALIZED }
      else r2, List.mem_map_of_mem _ hr2, ?_⟩
  simp [e1, e2, e3, e4]

lemma hasFin_insert_establish (sid : Nat) (n : String) (p : Nat) (st : MetadataState) :
    HasFinalizedPlacement
      (InsertShardPlacementRow sid INVALID_PLACEMENT_ID FILE_FINALIZED 0 n p st).2
      sid n p := by
  refine ⟨⟨st.nextPlacementId, sid, FILE_FINALIZED, 0, n, p⟩, ?_, rfl, rfl, rfl, rfl⟩
  simp [InsertShardPlacementRow, INVALID_PLACEMENT_ID]

/-- The per-worker loop never un-finalizes a placement: any worker
holding a finalized placement of any shard still holds it afterwards,
whether or not the loop failed part-way. -/
lemma hasFin_loop (copyOk : String → Nat → Bool) (sid : Nat) (cmds : CmdList)
    (snap : List PlacementRow) :
    ∀ (ws : List WorkerNode) (st : MetadataState) {sid2 : Nat} {n : String} {p : Nat},
      HasFinalizedPlacement st sid2 n p →
      HasFinalizedPlacement (ReplicateToWorkers copyOk sid cmds snap ws st).state sid2 n p := by
  intro ws
  induction ws with
  | nil => intro st sid2 n p h; simpa [ReplicateToWorkers] using h
  | cons w ws ih =>
    intro st sid2 n p h
    cases hsearch : SearchShardPlacementInList snap w.workerName w.workerPort with
    | some tp =>
      by_cases hfin : tp.shardState = FILE_FINALIZED
      · simpa [ReplicateToWorkers, hsearch, hfin] using ih st h
      · by_cases hok : copyOk w.workerName w.workerPort = true
        · simpa [ReplicateToWorkers, hsearch, hfin, hok] using
            ih (UpdateShardPlacementState tp.placementId FILE_FINALIZED st)
              (hasFin_update tp.placementId h)
        · simpa [ReplicateToWorkers, hsearch, hfin, hok] using h
    | none =>
      by_cases hok : copyOk w.workerName w.workerPort = true
      · simpa [ReplicateToWorkers, hsearch, hok] using
          ih (InsertShardPlacementRow sid INVALID_PLACEMENT_ID FILE_FINALIZED 0
            w.workerName w.workerPort st).2
            (hasFin_insert sid INVALID_PLACEMENT_ID FILE_FINALIZED 0
              w.workerName w.workerPort h)
      · simpa [ReplicateToWorkers, hsearch, hok] using h

/-- The per-worker loop touches only `placements` and `nextPlacementId`. -/
lemma replicateToWorkers_frame (copyOk : String → Nat → Bool) (sid : Nat)
    (cmds : CmdList) (snap : List PlacementRow) :
    ∀ (ws : List WorkerNode) (st : MetadataState),
      (ReplicateToWorkers copyOk sid cmds snap ws st).state.partitions = st.partitions ∧
      (ReplicateToWorkers copyOk sid cmds snap ws st).state.shards = st.shards ∧
      (ReplicateToWorkers copyOk sid cmds snap ws st).state.colocations = st.colocations ∧
      (ReplicateToWorkers copyOk sid cmds snap ws st).state.workers = st.workers ∧
      (ReplicateToWorkers copyOk sid cmds snap ws st).state.foreignKeys = st.foreignKeys ∧
      (ReplicateToWorkers copyOk sid cmds snap ws st).state.nextColocationId =
        st.nextColocationId := by
  intro ws
  induction ws with
  | nil => intro st; simp [ReplicateToWorkers]
  | cons w ws ih =>
    intro st
    cases hsearch : SearchShardPlacementInList snap w.workerName w.workerPort with
    | some tp =>
      by_cases hfin : tp.shardState = FILE_FINALIZED
      · simpa [ReplicateToWorkers, hsearch, hfin] using ih st
      · by_cases hok : copyOk w.workerName w.workerPort = true
        · simpa [ReplicateToWorkers, hsearch, hfin, hok, UpdateShardPlacementState] using
            ih (UpdateShardPlacementState tp.placementId FILE_FINALIZED st)
        · simp [ReplicateToWorkers, hsearch, hfin, hok]
    | none =>
      by_cases hok : copyOk w.workerName w.workerPort = true
      · simpa [ReplicateToWorkers, hsearch, hok, InsertShardPlacementRow] using
          ih (InsertShardPlacementRow sid INVALID_PLACEMENT_ID FILE_FINALIZED 0
            w.workerName w.workerPort st).2
      · simp [ReplicateToWorkers, hsearch, hok]

/-! ### Branch reduction equations for the per-worker loop -/

lemma rtw_cons_skip {copyOk : String → Nat → Bool} {sid : Nat} {cmds : CmdList}
    {snap : List PlacementRow} {w : WorkerNode} {ws : List WorkerNode}
    {st : MetadataState} {tp : PlacementRow}
    (hsearch : SearchShardPlacementInList snap w.workerName w.workerPort = some tp)
    (hfin : tp.shardState = FILE_FINALIZED) :
    ReplicateToWorkers copyOk sid cmds snap (w :: ws) st =
      ReplicateToWorkers copyOk sid cmds snap ws st := by
  simp [ReplicateToWorkers, hsearch, hfin]

lemma rtw_cons_update {copyOk : String → Nat → Bool} {sid : Nat} {cmds : CmdList}
    {snap : List PlacementRow} {w : WorkerNode} {ws : List WorkerNode}
    {st : MetadataState} {tp : PlacementRow}
    (hsearch : SearchShardPlacementInList snap w.workerName w.workerPort = some tp)
    (hfin : ¬ tp.shardState = FILE_FINALIZED)
    (hok : copyOk w.workerName w.workerPort = true) :
    ReplicateToWorkers copyOk sid cmds snap (w :: ws) st =
      ⟨(ReplicateToWorkers copyOk sid cmds snap ws
          (UpdateShardPlacementState tp.placementId FILE_FINALIZED st)).err,
       (ReplicateToWorkers copyOk sid cmds snap ws
          (UpdateShardPlacementState tp.placementId FILE_FINALIZED st)).state,
       Event.notice w.workerName w.workerPort ::
         Event.copy w.workerName w.workerPort cmds ::
           Event.updatePlacement tp.placementId w.workerName w.workerPort ::
             (ReplicateToWorkers copyOk sid cmds snap ws
               (UpdateShardPlacementState tp.placementId FILE_FINALIZED st)).events⟩ := by
  simp [ReplicateToWorkers, hsearch, hfin, hok]

lemma rtw_cons_updateFail {copyOk : String → Nat → Bool} {sid : Nat} {cmds : CmdList}
    {snap : List PlacementRow} {w : WorkerNode} {ws : List WorkerNode}
    {st : MetadataState} {tp : PlacementRow}
    (hsearch : SearchShardPlacementInList snap w.workerName w.workerPort = some tp)
    (hfin : ¬ tp.shardState = FILE_FINALIZED)
    (hok : ¬ copyOk w.workerName w.workerPort = true) :
    ReplicateToWorkers copyOk sid cmds snap (w :: ws) st =
      ⟨some (CitusError.copyFailed w.workerName w.workerPort), st,
        [Event.notice w.workerName w.workerPort]⟩ := by
  simp [ReplicateToWorkers, hsearch, hfin, hok]

lemma rtw_cons_insert {copyOk : String → Nat → Bool} {sid : Nat} {cmds : CmdList}
    {snap : List PlacementRow} {w : WorkerNode} {ws : List WorkerNode}
    {st : MetadataState}
    (hsearch : SearchShardPlacementInList snap w.workerName w.workerPort = none)
    (hok : copyOk w.workerName w.workerPort = true) :
    ReplicateToWorkers copyOk sid cmds snap (w :: ws) st =
      ⟨(ReplicateToWorkers copyOk sid cmds snap ws
          (InsertShardPlacementRow sid INVALID_PLACEMENT_ID FILE_FINALIZED 0
            w.workerName w.workerPort st).2).err,
       (ReplicateToWorkers copyOk sid cmds snap ws
          (InsertShardPlacementRow sid INVALID_PLACEMENT_ID FILE_FINALIZED 0
            w.workerName w.workerPort st).2).state,
       Event.notice w.workerName w.workerPort ::
         Event.copy w.workerName w.workerPort cmds ::
           Event.insertPlacement sid st.nextPlacementId w.workerName w.workerPort ::
             (ReplicateToWorkers copyOk sid cmds snap ws
               (InsertShardPlacementRow sid INVALID_PLACEMENT_ID FILE_FINALIZED 0
                 w.workerName w.workerPort st).2).events⟩ := by
  simp [ReplicateToWorkers, hsearch, hok, InsertShardPlacementRow, INVALID_PLACEMENT_ID]

lemma rtw_cons_insertFail {copyOk : String → Nat → Bool} {sid : Nat} {cmds : CmdList}
    {snap : List PlacementRow} {w : WorkerNode} {ws : List WorkerNode}
    {st : MetadataState}
    (hsearch : SearchShardPlacementInList snap w.workerName w.workerPort = none)
    (hok : ¬ copyOk w.workerName w.workerPort = true) :
    ReplicateToWorkers copyOk sid cmds snap (w :: ws) st =
      ⟨some (CitusError.copyFailed w.workerName w.workerPort), st,
        [Event.notice w.workerName w.workerPort]⟩ := by
  simp [ReplicateToWorkers, hsearch, hok]

/-- Workhorse invariant of the per-worker loop.  On success every listed
worker ends up holding a finalized placement of the shard; and every
placement-mutation event in the trace — even of a run that failed at a
later worker — corresponds to a placement row that is finalized in the
final state (committed per-worker progress survives later failures). -/
lemma replicateToWorkers_main (copyOk : String → Nat → Bool) (sid : Nat)
    (cmds : CmdList) (snap : List PlacementRow)
    (hsnap : ∀ r ∈ snap, r.shardId = sid) :
    ∀ (ws : List WorkerNode) (st : MetadataState), SnapTracked snap st →
      ((ReplicateToWorkers copyOk sid cmds snap ws st).err = none →
        ∀ w ∈ ws, HasFinalizedPlacement
          (ReplicateToWorkers copyOk sid cmds snap ws st).state
          sid w.workerName w.workerPort) ∧
      (∀ sid2 pid n p,
        Event.insertPlacement sid2 pid n p ∈
            (ReplicateToWorkers copyOk sid cmds snap ws st).events →
        HasFinalizedPlacement (ReplicateToWorkers copyOk sid cmds snap ws st).state
          sid2 n p) ∧
      (∀ pid n p,
        Event.updatePlacement pid n p ∈
            (ReplicateToWorkers copyOk sid cmds snap ws st).events →
        HasFinalizedPlacement (ReplicateToWorkers copyOk sid cmds snap ws st).state
          sid n p) := by
  intro ws
  induction ws with
  | nil =>
    intro st _
    refine ⟨fun _ w hw => absurd hw (List.not_mem_nil w), ?_, ?_⟩ <;>
      · intro _ _ _
        first
        | (intro _ hev; simp [ReplicateToWorkers] at hev)
        | (intro hev; simp [ReplicateToWorkers] at hev)
  | cons w ws ih =>
    intro st hst
    cases hsearch : SearchShardPlacementInList snap w.workerName w.workerPort with
    | some tp =>
      obtain ⟨htpmem, hn, hp⟩ := search_eq_some hsearch
      by_cases hfin : tp.shardState = FILE_FINALIZED
      · -- worker already holds a finalized placement: skipped
        rw [rtw_cons_skip hsearch hfin]
        obtain ⟨r2, hr2, _, f2, f3, f4, f5⟩ := hst tp htpmem
        have hhead : HasFinalizedPlacement st sid w.workerName w.workerPort :=
          ⟨r2, hr2, by rw [f2, hsnap tp htpmem], by rw [f3, hn], by rw [f4, hp],
            f5 hfin⟩
        obtain ⟨ihA, ihB, ihC⟩ := ih st hst
        refine ⟨?_, ihB, ihC⟩
        intro herr v hv
        rcases List.mem_cons.mp hv with hv | hv
        · subst hv; exact hasFin_loop copyOk sid cmds snap ws st hhead
        · exact ihA herr v hv
      · by_cases hok : copyOk w.workerName w.workerPort = true
        · -- copy succeeded, existing placement row finalized
          rw [rtw_cons_update hsearch hfin hok]
          have hst1 := snapTracked_update tp.placementId hst
          have hhead := hasFin_update_establish hst htpmem
          rw [hsnap tp htpmem, hn, hp] at hhead
          obtain ⟨ihA, ihB, ihC⟩ := ih _ hst1
          refine ⟨?_, ?_, ?_⟩
          · intro herr v hv
            rcases List.mem_cons.mp hv with hv | hv
            · subst hv
              exact hasFin_loop copyOk sid cmds snap ws _ hhead
            · exact ihA herr v hv
          · intro sid2 pid2 n2 p2 hev
            simp only [List.mem_cons] at hev
            rcases hev with h | h | h | h
            · exact Event.noConfusion h
            · exact Event.noConfusion h
            · exact Event.noConfusion h
            · exact ihB sid2 pid2 n2 p2 h
          · intro pid2 n2 p2 hev
            simp only [List.mem_cons] at hev
            rcases hev with h | h | h | h
            · exact Event.noConfusion h
            · exact Event.noConfusion h
            · injection h with h1 h2 h3
              rw [h2, h3]
              exact hasFin_loop copyOk sid cmds snap ws _ hhead
            · exact ihC pid2 n2 p2 h
        · -- copy failed at this worker: stop, state kept
          rw [rtw_cons_updateFail hsearch hfin hok]
          refine ⟨fun herr => absurd herr (by simp), ?_, ?_⟩ <;>
            · intro _ _ _
              first
              | (intro _ hev; simp at hev)
              | (intro hev; simp at hev)
    | none =>
      by_cases hok : copyOk w.workerName w.workerPort = true
      · -- copy succeeded, fresh placement row inserted as FINALIZED
        rw [rtw_cons_insert hsearch hok]
        have hst1 := snapTracked_insert sid INVALID_PLACEMENT_ID FILE_FINALIZED 0
          w.workerName w.workerPort hst
        have hhead := hasFin_insert_establish sid w.workerName w.workerPort st
        obtain ⟨ihA, ihB, ihC⟩ := ih _ hst1
        refine ⟨?_, ?_, ?_⟩
        · intro herr v hv
          rcases List.mem_cons.mp hv with hv | hv
          · subst hv
            exact hasFin_loop copyOk sid cmds snap ws _ hhead
          · exact ihA herr v hv
        · intro sid2 pid2 n2 p2 hev
          simp only [List.mem_cons] at hev
          rcases hev with h | h | h | h
          · exact Event.noConfusion h
          · exact Event.noConfusion h
          · injection h with h1 h2 h3 h4
            rw [h1, h3, h4]
            exact hasFin_loop copyOk sid cmds snap ws _ hhead
          · exact ihB sid2 pid2 n2 p2 h
        · intro pid2 n2 p2 hev
          simp only [List.mem_cons] at hev
          rcases hev with h | h | h | h
          · exact Event.noConfusion h
          · exact Event.noConfusion h
          · exact Event.noConfusion h
          · exact ihC pid2 n2 p2 h
      · rw [rtw_cons_insertFail hsearch hok]
        refine ⟨fun herr => absurd herr (by simp), ?_, ?_⟩ <;>
          · intro _ _ _
            first
            | (intro _ hev; simp at hev)
            | (intro hev; simp at hev)

/-! ### Trace-shape lemmas -/

lemma ppc_nil : PlacementPrecededByCopy [] := by
  intro pre ev post h n p _
  simp at h

lemma ppc_notice (n : String) (p : Nat) :
    PlacementPrecededByCopy [Event.notice n p] := by
  intro pre ev post h n2 p2 hev
  rcases pre with - | ⟨a, pre1⟩
  · simp only [List.nil_append] at h
    injection h with h1 _
    rw [← h1] at hev
    simp [eventPlacementNode] at hev
  · simp only [List.cons_append] at h
    injection h with _ h2
    simp at h2

/-- Prepend a well-formed per-worker block (notice, committed copy, then
the placement mutation of the same worker) to a well-formed trace. -/
lemma ppc_block (n : String) (p : Nat) (cmds : CmdList) (ev3 : Event)
    (rest : List Event)
    (h3 : ∀ n2 p2, eventPlacementNode ev3 = some (n2, p2) → n2 = n ∧ p2 = p)
    (hr : PlacementPrecededByCopy rest) :
    PlacementPrecededByCopy
      (Event.notice n p :: Event.copy n p cmds :: ev3 :: rest) := by
  intro pre ev post heq n2 p2 hev
  rcases pre with - | ⟨a, - | ⟨b, - | ⟨c, pre3⟩⟩⟩
  · simp only [List.nil_append] at heq
    injection heq with h1 _
    rw [← h1] at hev
    simp [eventPlacementNode] at hev
  · simp only [List.cons_append, List.nil_append] at heq
    injection heq with _ heq
    injection heq with h2 _
    rw [← h2] at hev
    simp [eventPlacementNode] at hev
  · simp only [List.cons_append, List.nil_append] at heq
    injection heq with h1 heq
    injection heq with h2 heq
    injection heq with h3e _
    obtain ⟨hn2, hp2⟩ := h3 n2 p2 (by rw [h3e]; exact hev)
    refine ⟨cmds, ?_⟩
    rw [← h1, ← h2, hn2, hp2]
    simp [List.getLast?_cons_cons]
  · simp only [List.cons_append] at heq
    injection heq with h1 heq
    injection heq with h2 heq
    injection heq with h3e hrest
    obtain ⟨cc, hcc⟩ := hr pre3 ev post hrest n2 p2 hev
    rcases pre3 with - | ⟨d, t⟩
    · simp at hcc
    · refine ⟨cc, ?_⟩
      simpa [List.getLast?_cons_cons] using hcc

/-- C6 core: in every run of the per-worker loop, a placement row is
inserted or transitioned to finalized only immediately after the copy
commands committed on that same worker. -/
lemma replicateToWorkers_trace (copyOk : String → Nat → Bool) (sid : Nat)
    (cmds : CmdList) (snap : List PlacementRow) :
    ∀ (ws : List WorkerNode) (st : MetadataState),
      PlacementPrecededByCopy (ReplicateToWorkers copyOk sid cmds snap ws st).events := by
  intro ws
  induction ws with
  | nil =>
    intro st
    simpa [ReplicateToWorkers] using ppc_nil
  | cons w ws ih =>
    intro st
    cases hsearch : SearchShardPlacementInList snap w.workerName w.workerPort with
    | some tp =>
      by_cases hfin : tp.shardState = FILE_FINALIZED
      · rw [rtw_cons_skip hsearch hfin]; exact ih st
      · by_cases hok : copyOk w.workerName w.workerPort = true
        · rw [rtw_cons_update hsearch hfin hok]
          exact ppc_block _ _ _ _ _
            (by intro n2 p2 h
                simp only [eventPlacementNode, Option.some.injEq, Prod.mk.injEq] at h
                exact ⟨h.1.symm, h.2.symm⟩)
            (ih _)
        · rw [rtw_cons_updateFail hsearch hfin hok]
          exact ppc_notice _ _
    | none =>
      by_cases hok : copyOk w.workerName w.workerPort = true
      · rw [rtw_cons_insert hsearch hok]
        exact ppc_block _ _ _ _ _
          (by intro n2 p2 h
              simp only [eventPlacementNode, Option.some.injEq, Prod.mk.injEq] at h
              exact ⟨h.1.symm, h.2.symm⟩)
          (ih _)
      · rw [rtw_cons_insertFail hsearch hok]
        exact ppc_notice _ _

/-- When every worker already holds a finalized placement in the
snapshot, the loop is a complete no-op: no error, unchanged state, empty
trace. -/
lemma replicateToWorkers_noop (copyOk : String → Nat → Bool) (sid : Nat)
    (cmds : CmdList) (snap : List PlacementRow) :
    ∀ (ws : List WorkerNode) (st : MetadataState),
      (∀ w ∈ ws, ∃ tp,
        SearchShardPlacementInList snap w.workerName w.workerPort = some tp ∧
          tp.shardState = FILE_FINALIZED) →
      ReplicateToWorkers copyOk sid cmds snap ws st = ⟨none, st, []⟩ := by
  intro ws
  induction ws with
  | nil => intro st _; rfl
  | cons w ws ih =>
    intro st h
    obtain ⟨tp, hs, hf⟩ := h w (List.mem_cons_self w ws)
    rw [rtw_cons_skip hs hf]
    exact ih st (fun v hv => h v (List.mem_cons_of_mem w hv))

/-- A worker whose snapshot placement is already finalized is skipped
entirely: no event of the run addresses it. -/
lemma replicateToWorkers_skips (copyOk : String → Nat → Bool) (sid : Nat)
    (cmds : CmdList) (snap : List PlacementRow) (n : String) (p : Nat)
    (hfin : ∃ tp, SearchShardPlacementInList snap n p = some tp ∧
      tp.shardState = FILE_FINALIZED) :
    ∀ (ws : List WorkerNode) (st : MetadataState),
      ∀ ev ∈ (ReplicateToWorkers copyOk sid cmds snap ws st).events,
        eventNode ev ≠ some (n, p) := by
  intro ws
  induction ws with
  | nil => intro st ev hev; simp [ReplicateToWorkers] at hev
  | cons w ws ih =>
    intro st ev hev
    by_cases hw : w.workerName = n ∧ w.workerPort = p
    · obtain ⟨tp, hs, hf⟩ := hfin
      rw [← hw.1, ← hw.2] at hs
      rw [rtw_cons_skip hs hf] at hev
      exact ih st ev hev
    · have hwne : ¬ (some (w.workerName, w.workerPort) =
          (some (n, p) : Option (String × Nat))) := by
        intro hc
        injection hc with hc
        exact hw ⟨congrArg Prod.fst hc, congrArg Prod.snd hc⟩
      cases hsearch : SearchShardPlacementInList snap w.workerName w.workerPort with
      | some tp =>
        by_cases hfin2 : tp.shardState = FILE_FINALIZED
        · rw [rtw_cons_skip hsearch hfin2] at hev
          exact ih st ev hev
        · by_cases hok : copyOk w.workerName w.workerPort = true
          · rw [rtw_cons_update hsearch hfin2 hok] at hev
            simp only [List.mem_cons] at hev
            rcases hev with h | h | h | h
            · rw [h]; exact hwne
            · rw [h]; exact hwne
            · rw [h]; exact hwne
            · exact ih _ ev h
          · rw [rtw_cons_updateFail hsearch hfin2 hok] at hev
            simp only [List.mem_cons] at hev
            rcases hev with h | h
            · rw [h]; exact hwne
            · simp at h
      | none =>
        by_cases hok : copyOk w.workerName w.workerPort = true
        · rw [rtw_cons_insert hsearch hok] at hev
          simp only [List.mem_cons] at hev
          rcases hev with h | h | h | h
          · rw [h]; exact hwne
          · rw [h]; exact hwne
          · rw [h]; exact hwne
          · exact ih _ ev h
        · rw [rtw_cons_insertFail hsearch hok] at hev
          simp only [List.mem_cons] at hev
          rcases hev with h | h
          · rw [h]; exact hwne
          · simp at h

/-- Every copy event of the loop carries the one command list built from
the source placement before the loop started. -/
lemma replicateToWorkers_copy_cmds (copyOk : String → Nat → Bool) (sid : Nat)
    (cmds : CmdList) (snap : List PlacementRow) :
    ∀ (ws : List WorkerNode) (st : MetadataState) (n2 : String) (p2 : Nat)
      (c : CmdList),
      Event.copy n2 p2 c ∈ (ReplicateToWorkers copyOk sid cmds snap ws st).events →
      c = cmds := by
  intro ws
  induction ws with
  | nil => intro st n2 p2 c hev; simp [ReplicateToWorkers] at hev
  | cons w ws ih =>
    intro st n2 p2 c hev
    cases hsearch : SearchShardPlacementInList snap w.workerName w.workerPort with
    | some tp =>
      by_cases hfin : tp.shardState = FILE_FINALIZED
      · rw [rtw_cons_skip hsearch hfin] at hev
        exact ih st n2 p2 c hev
      · by_cases hok : copyOk w.workerName w.workerPort = true
        · rw [rtw_cons_update hsearch hfin hok] at hev
          simp only [List.mem_cons] at hev
          rcases hev with h | h | h | h
          · exact Event.noConfusion h
          · injection h
          · exact Event.noConfusion h
          · exact ih _ n2 p2 c h
        · rw [rtw_cons_updateFail hsearch hfin hok] at hev
          simp at hev
    | none =>
      by_cases hok : copyOk w.workerName w.workerPort = true
      · rw [rtw_cons_insert hsearch hok] at hev
        simp only [List.mem_cons] at hev
        rcases hev with h | h | h | h
        · exact Event.noConfusion h
        · injection h
        · exact Event.noConfusion h
        · exact ih _ n2 p2 c h
      · rw [rtw_cons_insertFail hsearch hok] at hev
        simp at hev

/-- The per-worker loop never updates a replication factor. -/
lemma replicateToWorkers_no_factor_events (copyOk : String → Nat → Bool)
    (sid : Nat) (cmds : CmdList) (snap : List PlacementRow) :
    ∀ (ws : List WorkerNode) (st : MetadataState),
      ∀ ev ∈ (ReplicateToWorkers copyOk sid cmds snap ws st).events,
        isReplicationFactorUpdate ev = false := by
  intro ws
  induction ws with
  | nil => intro st ev hev; simp [ReplicateToWorkers] at hev
  | cons w ws ih =>
    intro st ev hev
    cases hsearch : SearchShardPlacementInList snap w.workerName w.workerPort with
    | some tp =>
      by_cases hfin : tp.shardState = FILE_FINALIZED
      · rw [rtw_cons_skip hsearch hfin] at hev
        exact ih st ev hev
      · by_cases hok : copyOk w.workerName w.workerPort = true
        · rw [rtw_cons_update hsearch hfin hok] at hev
          simp only [List.mem_cons] at hev
          rcases hev with h | h | h | h
          · rw [h]; rfl
          · rw [h]; rfl
          · rw [h]; rfl
          · exact ih _ ev h
        · rw [rtw_cons_updateFail hsearch hfin hok] at hev
          simp only [List.mem_cons] at hev
          rcases hev with h | h
          · rw [h]; rfl
          · simp at h
    | none =>
      by_cases hok : copyOk w.workerName w.workerPort = true
      · rw [rtw_cons_insert hsearch hok] at hev
        simp only [List.mem_cons] at hev
        rcases hev with h | h | h | h
        · rw [h]; rfl
        · rw [h]; rfl
        · rw [h]; rfl
        · exact ih _ ev h
      · rw [rtw_cons_insertFail hsearch hok] at hev
        simp only [List.mem_cons] at hev
        rcases hev with h | h
        · rw [h]; rfl
        · simp at h

/-! ### Placement-key uniqueness -/

lemma pKey_update (pid : Nat) (q : PlacementRow) :
    pKey (if q.placementId = pid then { q with shardState := FILE_FINALIZED } else q) =
      pKey q := by
  by_cases hc : q.placementId = pid <;> simp [hc, pKey]

lemma map_pKey_update (pid : Nat) (l : List PlacementRow) :
    ((l.map (fun q => if q.placementId = pid then
        { q with shardState := FILE_FINALIZED } else q)).map pKey) = l.map pKey := by
  induction l with
  | nil => rfl
  | cons a t ih => simp only [List.map_cons, pKey_update, ih]

/-- The per-worker loop preserves uniqueness of placement keys: a row is
inserted only for a worker whose key was absent, and updates never change
a key.  The hypotheses say that the incoming keys are unique, that a
worker missing from the snapshot has no key in the current state, and
that the worker keys themselves are unique. -/
lemma replicateToWorkers_nodup (copyOk : String → Nat → Bool) (sid : Nat)
    (cmds : CmdList) (snap : List PlacementRow) :
    ∀ (ws : List WorkerNode) (st : MetadataState),
      (st.placements.map pKey).Nodup →
      (∀ n p, SearchShardPlacementInList snap n p = none → (n, p) ∈ ws.map wKey →
        ∀ r ∈ st.placements, pKey r ≠ (sid, n, p)) →
      (ws.map wKey).Nodup →
      ((ReplicateToWorkers copyOk sid cmds snap ws st).state.placements.map pKey).Nodup := by
  intro ws
  induction ws with
  | nil => intro st hnd _ _; simpa [ReplicateToWorkers] using hnd
  | cons w ws ih =>
    intro st hnd hfresh hwnd
    have hwnd2 : (ws.map wKey).Nodup := by
      simp only [List.map_cons, List.nodup_cons] at hwnd
      exact hwnd.2
    cases hsearch : SearchShardPlacementInList snap w.workerName w.workerPort with
    | some tp =>
      by_cases hfin : tp.shardState = FILE_FINALIZED
      · rw [rtw_cons_skip hsearch hfin]
        exact ih st hnd
          (fun n p hnone hmem => hfresh n p hnone (List.mem_cons_of_mem _ hmem)) hwnd2
      · by_cases hok : copyOk w.workerName w.workerPort = true
        · rw [rtw_cons_update hsearch hfin hok]
          apply ih
          · show (((st.placements.map _)).map pKey).Nodup
            rw [map_pKey_update]
            exact hnd
          · intro n p hnone hmem r hrmem hkey
            simp only [UpdateShardPlacementState, List.mem_map] at hrmem
            obtain ⟨r0, hr0, hr0e⟩ := hrmem
            have : pKey r = pKey r0 := by rw [← hr0e, pKey_update]
            exact hfresh n p hnone (List.mem_cons_of_mem _ hmem) r0 hr0
              (by rw [← this]; exact hkey)
          · exact hwnd2
        · rw [rtw_cons_updateFail hsearch hfin hok]
          exact hnd
    | none =>
      by_cases hok : copyOk w.workerName w.workerPort = true
      · rw [rtw_cons_insert hsearch hok]
        apply ih
        · show ((st.placements ++
              [(⟨st.nextPlacementId, sid, FILE_FINALIZED, 0,
                w.workerName, w.workerPort⟩ : PlacementRow)]).map pKey).Nodup
          rw [List.map_append]
          rw [List.nodup_append]
          refine ⟨hnd, List.nodup_singleton _, ?_⟩
          intro a ha hb
          simp only [List.map_cons, List.map_nil, List.mem_singleton] at hb
          obtain ⟨r0, hr0, hr0e⟩ := List.mem_map.mp ha
          apply hfresh w.workerName w.workerPort hsearch
            (by simp [wKey]) r0 hr0
          rw [hr0e, hb]
          rfl
        · intro n p hnone hmem r hrmem hkey
          have hwne : (n, p) ≠ wKey w := by
            intro hc
            simp only [List.map_cons, List.nodup_cons] at hwnd
            exact hwnd.1 (hc ▸ hmem)
          simp only [InsertShardPlacementRow, List.mem_append] at hrmem
          rcases hrmem with hrmem | hrmem
          · exact hfresh n p hnone (List.mem_cons_of_mem _ hmem) r hrmem hkey
          · simp only [List.mem_singleton] at hrmem
            apply hwne
            rw [hrmem] at hkey
            simp only [pKey, Prod.mk.injEq] at hkey
            simp [wKey, hkey.2.1, hkey.2.2]
        · exact hwnd2
      · rw [rtw_cons_insertFail hsearch hok]
        exact hnd

/-- With unique placement keys, a worker holding a finalized placement of
the shard is found by the snapshot search, and the row found is that
finalized row. -/
lemma nodup_hasFin_search {st : MetadataState} {sid : Nat} {n : String} {p : Nat}
    (hnd : (st.placements.map pKey).Nodup)
    (h : HasFinalizedPlacement st sid n p) :
    ∃ tp, SearchShardPlacementInList (ShardPlacementList st sid) n p = some tp ∧
      tp.shardState = FILE_FINALIZED := by
  obtain ⟨r, hr, h1, h2, h3, h4⟩ := h
  have hrmem : r ∈ ShardPlacementList st sid := mem_shardPlacementList.mpr ⟨hr, h1⟩
  have hsome : (SearchShardPlacementInList (ShardPlacementList st sid) n p).isSome := by
    rw [SearchShardPlacementInList, List.find?_isSome]
    exact ⟨r, hrmem, by simp [h2, h3]⟩
  obtain ⟨tp, htp⟩ := Option.isSome_iff_exists.mp hsome
  refine ⟨tp, htp, ?_⟩
  obtain ⟨htpmem, hn, hp⟩ := search_eq_some htp
  have htpm2 := mem_shardPlacementList.mp htpmem
  have hkey : pKey tp = pKey r := by
    simp [pKey, htpm2.2, h1, hn, h2, hp, h3]
  have htpr : tp = r := List.inj_on_of_nodup_map hnd htpm2.1 hr hkey
  rw [htpr]
  exact h4

/-! ### Sorting is a permutation -/

lemma sortInsert_perm (w : WorkerNode) (l : List WorkerNode) :
    List.Perm (SortInsert w l) (w :: l) := by
  induction l with
  | nil => exact List.Perm.refl _
  | cons v vs ih =>
    rw [SortInsert]
    by_cases hle : WorkerNodeLe w v = true
    · rw [if_pos hle]
    · rw [if_neg hle]
      exact (ih.cons v).trans (List.Perm.swap w v vs)

lemma sortList_perm (l : List WorkerNode) : List.Perm (SortList l) l := by
  induction l with
  | nil => exact List.Perm.refl _
  | cons w ws ih =>
    rw [SortList]
    exact (sortInsert_perm w (SortList ws)).trans (ih.cons w)

lemma mem_sortList {w : WorkerNode} {l : List WorkerNode} :
    w ∈ SortList l ↔ w ∈ l :=
  (sortList_perm l).mem_iff

/-! ### Top-level lemmas for ReplicateShardToAllWorkers -/

lemma finalizedShardPlacement_spec {st : MetadataState} {sid : Nat}
    {src : PlacementRow} (h : FinalizedShardPlacement st sid = some src) :
    src ∈ st.placements ∧ src.shardId = sid ∧ src.shardState = FILE_FINALIZED := by
  have hm := List.mem_of_find?_eq_some h
  have hp := List.find?_some h
  have hm2 := mem_shardPlacementList.mp hm
  simp only [decide_eq_true_eq] at hp
  exact ⟨hm2.1, hm2.2, hp⟩

lemma finalizedShardPlacement_isSome {st : MetadataState} {sid : Nat}
    (h : ∃ p ∈ st.placements, p.shardId = sid ∧ p.shardState = FILE_FINALIZED) :
    (FinalizedShardPlacement st sid).isSome := by
  obtain ⟨r, hr, h1, h2⟩ := h
  rw [FinalizedShardPlacement, List.find?_isSome]
  exact ⟨r, mem_shardPlacementList.mpr ⟨hr, h1⟩, by simp [h2]⟩

lemma finalizedShardPlacement_none {st : MetadataState} {sid : Nat}
    (h : ¬ ∃ p ∈ st.placements, p.shardId = sid ∧ p.shardState = FILE_FINALIZED) :
    FinalizedShardPlacement st sid = none := by
  cases hf : FinalizedShardPlacement st sid with
  | none => rfl
  | some src =>
    obtain ⟨m, s1, s2⟩ := finalizedShardPlacement_spec hf
    exact absurd ⟨src, m, s1, s2⟩ h

lemma RSTAW_nosource {copyOk : String → Nat → Bool} {si : ShardRow}
    {st : MetadataState} (hsrc : FinalizedShardPlacement st si.shardId = none) :
    ReplicateShardToAllWorkers copyOk si st =
      ⟨some CitusError.noHealthySource, st, []⟩ := by
  simp [ReplicateShardToAllWorkers, hsrc]

lemma RSTAW_reduce {copyOk : String → Nat → Bool} {si : ShardRow}
    {st : MetadataState} {src : PlacementRow}
    (hsrc : FinalizedShardPlacement st si.shardId = some src) :
    ReplicateShardToAllWorkers copyOk si st =
      ReplicateToWorkers copyOk si.shardId
        (CopyShardCommandList si.shardId src.nodeName src.nodePort)
        (ShardPlacementList st si.shardId) (SortList st.workers) st := by
  simp [ReplicateShardToAllWorkers, hsrc]

lemma RSTAW_frame (copyOk : String → Nat → Bool) (si : ShardRow)
    (st : MetadataState) :
    (ReplicateShardToAllWorkers copyOk si st).state.partitions = st.partitions ∧
    (ReplicateShardToAllWorkers copyOk si st).state.shards = st.shards ∧
    (ReplicateShardToAllWorkers copyOk si st).state.colocations = st.colocations ∧
    (ReplicateShardToAllWorkers copyOk si st).state.workers = st.workers ∧
    (ReplicateShardToAllWorkers copyOk si st).state.foreignKeys = st.foreignKeys ∧
    (ReplicateShardToAllWorkers copyOk si st).state.nextColocationId =
      st.nextColocationId := by
  cases hsrc : FinalizedShardPlacement st si.shardId with
  | none => rw [RSTAW_nosource hsrc]; exact ⟨rfl, rfl, rfl, rfl, rfl, rfl⟩
  | some src =>
    rw [RSTAW_reduce hsrc]
    exact replicateToWorkers_frame _ _ _ _ _ _

lemma RSTAW_hasFin_mono (copyOk : String → Nat → Bool) (si : ShardRow)
    (st : MetadataState) {sid2 : Nat} {n : String} {p : Nat}
    (h : HasFinalizedPlacement st sid2 n p) :
    HasFinalizedPlacement (ReplicateShardToAllWorkers copyOk si st).state sid2 n p := by
  cases hsrc : FinalizedShardPlacement st si.shardId with
  | none => rw [RSTAW_nosource hsrc]; exact h
  | some src =>
    rw [RSTAW_reduce hsrc]
    exact hasFin_loop _ _ _ _ _ _ h

/-- When every worker already holds a finalized placement of the shard
(and the placement keys are unique), `ReplicateShardToAllWorkers` is a
complete no-op. -/
lemma RSTAW_noop (copyOk : String → Nat → Bool) (si : ShardRow)
    (st : MetadataState) (hnd : (st.placements.map pKey).Nodup)
    (hsome : ∃ p ∈ st.placements, p.shardId = si.shardId ∧
      p.shardState = FILE_FINALIZED)
    (hall : ∀ w ∈ st.workers,
      HasFinalizedPlacement st si.shardId w.workerName w.workerPort) :
    ReplicateShardToAllWorkers copyOk si st = ⟨none, st, []⟩ := by
  obtain ⟨src, hsrc⟩ :=
    Option.isSome_iff_exists.mp (finalizedShardPlacement_isSome hsome)
  rw [RSTAW_reduce hsrc]
  apply replicateToWorkers_noop
  intro w hw
  exact nodup_hasFin_search hnd (hall w (mem_sortList.mp hw))

lemma RSTAW_no_factor_events (copyOk : String → Nat → Bool) (si : ShardRow)
    (st : MetadataState) :
    ∀ ev ∈ (ReplicateShardToAllWorkers copyOk si st).events,
      isReplicationFactorUpdate ev = false := by
  cases hsrc : FinalizedShardPlacement st si.shardId with
  | none => rw [RSTAW_nosource hsrc]; intro ev hev; simp at hev
  | some src =>
    rw [RSTAW_reduce hsrc]
    exact replicateToWorkers_no_factor_events _ _ _ _ _ _

/-- C1: replicating a shard to all workers is idempotent.  A worker whose
snapshot placement is already `FILE_FINALIZED` is skipped — no event of
the run (copy, insert, or update) addresses it — and when a run succeeds
fully, running `ReplicateShardToAllWorkers` again on the resulting state
does nothing at all: it succeeds with an unchanged state and an empty
trace (zero additional worker copies).  Hypotheses: placement rows are
unique per (shard, node, port) key — the spec's persisted layout — and
worker nodes are unique per (name, port). -/
theorem replicateShard_idempotent (copyOk : String → Nat → Bool)
    (si : ShardRow) (st : MetadataState)
    (hnd : (st.placements.map pKey).Nodup)
    (hwnd : (st.workers.map wKey).Nodup)
    (hok : (ReplicateShardToAllWorkers copyOk si st).err = none) :
    ReplicateShardToAllWorkers copyOk si
        (ReplicateShardToAllWorkers copyOk si st).state =
      ⟨none, (ReplicateShardToAllWorkers copyOk si st).state, []⟩ ∧
    (∀ n p, (∃ tp, SearchShardPlacementInList (ShardPlacementList st si.shardId)
          n p = some tp ∧ tp.shardState = FILE_FINALIZED) →
      ∀ ev ∈ (ReplicateShardToAllWorkers copyOk si st).events,
        eventNode ev ≠ some (n, p)) := by
  cases hsrc : FinalizedShardPlacement st si.shardId with
  | none => rw [RSTAW_nosource hsrc] at hok; exact absurd hok (by simp)
  | some src =>
    have hsnap : ∀ r ∈ ShardPlacementList st si.shardId, r.shardId = si.shardId :=
      fun r hr => (mem_shardPlacementList.mp hr).2
    have hred := @RSTAW_reduce copyOk si st src hsrc
    constructor
    · -- the second run is a no-op
      set st1 := (ReplicateShardToAllWorkers copyOk si st).state with hst1
      have hok2 : (ReplicateToWorkers copyOk si.shardId
          (CopyShardCommandList si.shardId src.nodeName src.nodePort)
          (ShardPlacementList st si.shardId) (SortList st.workers) st).err = none := by
        rw [← hred]; exact hok
      have hworkers : ∀ w ∈ SortList st.workers,
          HasFinalizedPlacement st1 si.shardId w.workerName w.workerPort := by
        intro w hw
        have := (replicateToWorkers_main copyOk si.shardId _ _ hsnap
          (SortList st.workers) st (snapTracked_initial st si.shardId)).1 hok2 w hw
        rw [hst1, hred]
        exact this
      have hnd1 : (st1.placements.map pKey).Nodup := by
        rw [hst1, hred]
        apply replicateToWorkers_nodup copyOk si.shardId _ _ _ st hnd
        · intro n p hnone _ r hrmem hkey
          have hrsnap : r ∈ ShardPlacementList st si.shardId := by
            apply mem_shardPlacementList.mpr
            refine ⟨hrmem, ?_⟩
            have := congrArg Prod.fst hkey
            simpa [pKey] using this
          apply search_eq_none hnone r hrsnap
          constructor
          · have := congrArg (fun q => q.2.1) hkey
            simpa [pKey] using this
          · have := congrArg (fun q => q.2.2) hkey
            simpa [pKey] using this
        · exact ((sortList_perm st.workers).map wKey).nodup_iff.mpr hwnd
      have hw1 : st1.workers = st.workers := by
        rw [hst1]
        exact (RSTAW_frame copyOk si st).2.2.2.1
      have hsome1 : ∃ p ∈ st1.placements, p.shardId = si.shardId ∧
          p.shardState = FILE_FINALIZED := by
        obtain ⟨hm, h1, h2⟩ := finalizedShardPlacement_spec hsrc
        obtain ⟨r, hr, hrest⟩ := @RSTAW_hasFin_mono copyOk si st
          si.shardId src.nodeName src.nodePort
          ⟨src, hm, h1, rfl, rfl, h2⟩
        exact ⟨r, hr, hrest.1, hrest.2.2.2⟩
      apply RSTAW_noop copyOk si st1 hnd1 hsome1
      rw [hw1]
      intro w hw
      exact hworkers w (mem_sortList.mpr hw)
    · -- finalized workers are skipped: no event addresses them
      intro n p hfin ev hev
      rw [hred] at hev
      exact replicateToWorkers_skips copyOk si.shardId _ _ n p hfin
        (SortList st.workers) st ev hev

/-- Witness for C1: two workers, shard healthy on w1 only; the first run
succeeds (copying to w2), the second run is a no-op. -/
theorem replicateShard_idempotent_witness :
    ReplicateShardToAllWorkers exCopyOk exShard
        (ReplicateShardToAllWorkers exCopyOk exShard exSt).state =
      ⟨none, (ReplicateShardToAllWorkers exCopyOk exShard exSt).state, []⟩ ∧
    (∀ n p, (∃ tp, SearchShardPlacementInList (ShardPlacementList exSt exShard.shardId)
          n p = some tp ∧ tp.shardState = FILE_FINALIZED) →
      ∀ ev ∈ (ReplicateShardToAllWorkers exCopyOk exShard exSt).events,
        eventNode ev ≠ some (n, p)) :=
  replicateShard_idempotent exCopyOk exShard exSt (by decide) (by decide) (by decide)

/-- C5: with no `FILE_FINALIZED` placement of the shard,
`ReplicateShardToAllWorkers` fails with `noHealthySource` before any copy
command is sent and before any placement row changes (unchanged state,
empty trace); with at least one, the first finalized placement is
selected as the copy source and every copy event of the run carries the
one command list built from that source. -/
theorem replicateShard_source_selection (copyOk : String → Nat → Bool)
    (si : ShardRow) (st : MetadataState) :
    ((¬ ∃ p ∈ st.placements, p.shardId = si.shardId ∧
        p.shardState = FILE_FINALIZED) →
      ReplicateShardToAllWorkers copyOk si st =
        ⟨some CitusError.noHealthySource, st, []⟩) ∧
    ((∃ p ∈ st.placements, p.shardId = si.shardId ∧
        p.shardState = FILE_FINALIZED) →
      ∃ src, FinalizedShardPlacement st si.shardId = some src ∧
        src ∈ st.placements ∧ src.shardId = si.shardId ∧
        src.shardState = FILE_FINALIZED ∧
        ∀ n p c, Event.copy n p c ∈
            (ReplicateShardToAllWorkers copyOk si st).events →
          c = CopyShardCommandList si.shardId src.nodeName src.nodePort) := by
  constructor
  · intro hno
    exact RSTAW_nosource (finalizedShardPlacement_none hno)
  · intro hyes
    obtain ⟨src, hsrc⟩ :=
      Option.isSome_iff_exists.mp (finalizedShardPlacement_isSome hyes)
    obtain ⟨hm, h1, h2⟩ := finalizedShardPlacement_spec hsrc
    refine ⟨src, hsrc, hm, h1, h2, ?_⟩
    intro n p c hev
    rw [RSTAW_reduce hsrc] at hev
    exact replicateToWorkers_copy_cmds copyOk si.shardId _ _
      (SortList st.workers) st n p c hev

/-- Witness for C5: shard 200 has no placement (error branch); shard 100
has a finalized placement on w1 (source-selection branch). -/
theorem replicateShard_source_selection_witness :
    ReplicateShardToAllWorkers exCopyOk exShardNoSource exSt =
      ⟨some CitusError.noHealthySource, exSt, []⟩ ∧
    ∃ src, FinalizedShardPlacement exSt exShard.shardId = some src ∧
      src ∈ exSt.placements ∧ src.shardId = exShard.shardId ∧
      src.shardState = FILE_FINALIZED ∧
      ∀ n p c, Event.copy n p c ∈
          (ReplicateShardToAllWorkers exCopyOk exShard exSt).events →
        c = CopyShardCommandList exShard.shardId src.nodeName src.nodePort :=
  ⟨(replicateShard_source_selection exCopyOk exShardNoSource exSt).1 (by decide),
   (replicateShard_source_selection exCopyOk exShard exSt).2 (by decide)⟩

/-- C6: a placement row is inserted as, or transitioned to,
`FILE_FINALIZED` only immediately after the copy command list committed
on that same worker (trace ordering); and a failure at one worker leaves
every placement finalized earlier intact — both placements that were
finalized before the run and placements finalized by the run itself (the
insert/update events) are finalized in the final state, whether or not
the run ends in an error. -/
theorem replicateShard_finalize_after_copy (copyOk : String → Nat → Bool)
    (si : ShardRow) (st : MetadataState) :
    PlacementPrecededByCopy (ReplicateShardToAllWorkers copyOk si st).events ∧
    (∀ sid2 n p, HasFinalizedPlacement st sid2 n p →
      HasFinalizedPlacement (ReplicateShardToAllWorkers copyOk si st).state
        sid2 n p) ∧
    (∀ sid2 pid n p, Event.insertPlacement sid2 pid n p ∈
        (ReplicateShardToAllWorkers copyOk si st).events →
      HasFinalizedPlacement (ReplicateShardToAllWorkers copyOk si st).state
        sid2 n p) ∧
    (∀ pid n p, Event.updatePlacement pid n p ∈
        (ReplicateShardToAllWorkers copyOk si st).events →
      HasFinalizedPlacement (ReplicateShardToAllWorkers copyOk si st).state
        si.shardId n p) := by
  cases hsrc : FinalizedShardPlacement st si.shardId with
  | none =>
    rw [RSTAW_nosource hsrc]
    refine ⟨ppc_nil, fun _ _ _ h => h, ?_, ?_⟩
    · intro _ _ _ _ hev; simp at hev
    · intro _ _ _ hev; simp at hev
  | some src =>
    rw [RSTAW_reduce hsrc]
    have hsnap : ∀ r ∈ ShardPlacementList st si.shardId, r.shardId = si.shardId :=
      fun r hr => (mem_shardPlacementList.mp hr).2
    obtain ⟨hA, hB, hC⟩ := replicateToWorkers_main copyOk si.shardId
      (CopyShardCommandList si.shardId src.nodeName src.nodePort)
      (ShardPlacementList st si.shardId) hsnap (SortList st.workers) st
      (snapTracked_initial st si.shardId)
    exact ⟨replicateToWorkers_trace copyOk si.shardId _ _ (SortList st.workers) st,
      fun sid2 n p h => hasFin_loop copyOk si.shardId _ _ (SortList st.workers) st h,
      hB, hC⟩

/-- Witness for C6 exercising the inner implications at concrete inputs:
the pre-existing finalized placement of shard 100 on w1 survives the run,
and the insert event for w2 yields a finalized placement in the final
state. -/
theorem replicateShard_finalize_after_copy_witness :
    HasFinalizedPlacement (ReplicateShardToAllWorkers exCopyOk exShard exSt).state
      100 "w1" 1 ∧
    HasFinalizedPlacement (ReplicateShardToAllWorkers exCopyOk exShard exSt).state
      100 "w2" 2 :=
  ⟨(replicateShard_finalize_after_copy exCopyOk exShard exSt).2.1 100 "w1" 1
      (by decide),
   (replicateShard_finalize_after_copy exCopyOk exShard exSt).2.2.1 100 2 "w2" 2
      (by decide)⟩

/-- C2: every violated `PromoteToReference` precondition — not a
distributed table, already a reference table, shard count different from
one, participation in a foreign-key relationship in either direction —
makes `upgrade_to_reference_table` fail with the error naming that rule,
with the catalog state unchanged and an empty effect trace (no placement,
partition, shard, or colocation row inserted, updated, or deleted). -/
theorem upgrade_precondition_errors (copyOk : String → Nat → Bool)
    (rid : Nat) (st : MetadataState) :
    (IsDistributedTable st rid = false →
      upgrade_to_reference_table copyOk rid st =
        ⟨some (CitusError.notDistributed (get_rel_name rid)), st, []⟩) ∧
    (IsDistributedTable st rid = true →
      PartitionMethod st rid = DISTRIBUTE_BY_NONE →
      upgrade_to_reference_table copyOk rid st =
        ⟨some (CitusError.alreadyReference (get_rel_name rid)), st, []⟩) ∧
    (IsDistributedTable st rid = true →
      PartitionMethod st rid ≠ DISTRIBUTE_BY_NONE →
      (LoadShardIntervalList st rid).length ≠ 1 →
      upgrade_to_reference_table copyOk rid st =
        ⟨some (CitusError.shardCountNotOne (get_rel_name rid)), st, []⟩) ∧
    (IsDistributedTable st rid = true →
      PartitionMethod st rid ≠ DISTRIBUTE_BY_NONE →
      (LoadShardIntervalList st rid).length = 1 →
      (CopyShardForeignConstraintCommandList st rid ≠ [] ∨
        TableReferenced st rid = true) →
      upgrade_to_reference_table copyOk rid st =
        ⟨some (CitusError.foreignConstraint (get_rel_name rid)), st, []⟩) := by
  refine ⟨?_, ?_, ?_, ?_⟩
  · intro h1
    simp [upgrade_to_reference_table, h1]
  · intro h1 h2
    simp [upgrade_to_reference_table, h1, h2]
  · intro h1 h2 h3
    simp [upgrade_to_reference_table, h1, h2, h3]
  · intro h1 h2 h3 h4
    have hu : upgrade_to_reference_table copyOk rid st =
        ReplicateSingleShardTableToAllWorkers copyOk rid st := by
      simp [upgrade_to_reference_table, h1, h2, h3]
    rw [hu]
    cases hl : LoadShardIntervalList st rid with
    | nil => rw [hl] at h3; simp at h3
    | cons si rest =>
      rcases h4 with h4 | h4
      · simp [ReplicateSingleShardTableToAllWorkers, hl, h4]
      · simp [ReplicateSingleShardTableToAllWorkers, hl, h4]

/-- Witness for C2, one concrete table per violated precondition:
99 is not distributed, 20 is already a reference table, 21 has two
shards, 22 participates in a foreign-key relationship. -/
theorem upgrade_precondition_errors_witness :
    upgrade_to_reference_table exCopyOk 99 exStPre =
      ⟨some (CitusError.notDistributed (get_rel_name 99)), exStPre, []⟩ ∧
    upgrade_to_reference_table exCopyOk 20 exStPre =
      ⟨some (CitusError.alreadyReference (get_rel_name 20)), exStPre, []⟩ ∧
    upgrade_to_reference_table exCopyOk 21 exStPre =
      ⟨some (CitusError.shardCountNotOne (get_rel_name 21)), exStPre, []⟩ ∧
    upgrade_to_reference_table exCopyOk 22 exStPre =
      ⟨some (CitusError.foreignConstraint (get_rel_name 22)), exStPre, []⟩ :=
  ⟨(upgrade_precondition_errors exCopyOk 99 exStPre).1 (by decide),
   (upgrade_precondition_errors exCopyOk 20 exStPre).2.1 (by decide) (by decide),
   (upgrade_precondition_errors exCopyOk 21 exStPre).2.2.1 (by decide) (by decide)
     (by decide),
   (upgrade_precondition_errors exCopyOk 22 exStPre).2.2.2 (by decide) (by decide)
     (by decide) (Or.inl (by decide))⟩

/-! ### The metadata rewrite (C3) -/

lemma filter_key_del {α : Type} (f : α → Nat) (k : Nat) (l : List α) :
    ((l.filter (fun r => f r ≠ k)).filter (fun r => f r = k)) = [] := by
  induction l with
  | nil => rfl
  | cons a t ih => by_cases h : f a = k <;> simp [h, ih]

lemma filter_key_other {α : Type} (f : α → Nat) (k t : Nat) (hne : t ≠ k)
    (l : List α) :
    ((l.filter (fun r => f r ≠ k)).filter (fun r => f r = t)) =
      l.filter (fun r => f r = t) := by
  rw [List.filter_filter]
  apply List.filter_congr
  intro a _
  by_cases h : f a = t
  · simp [h, hne]
  · simp [h]

lemma mem_filter_key_ne {α : Type} (f : α → Nat) (k : Nat) (l : List α)
    (a : α) (ha : f a ≠ k) :
    (a ∈ l.filter (fun r => f r ≠ k)) ↔ a ∈ l := by
  simp [List.mem_filter, ha]

lemma createRefCid_frame (st : MetadataState) :
    (CreateReferenceTableColocationId st).2.partitions = st.partitions ∧
    (CreateReferenceTableColocationId st).2.shards = st.shards ∧
    (CreateReferenceTableColocationId st).2.placements = st.placements ∧
    (CreateReferenceTableColocationId st).2.workers = st.workers := by
  by_cases h : ColocationId st 1 st.workers.length InvalidOid = INVALID_COLOCATION_ID <;>
    simp [CreateReferenceTableColocationId, CreateColocationGroup, h]

/-- The exact shape of the state after `ConvertToReferenceTableMetadata`:
partition and shard tables lose the old rows and gain the one new row
each, placements are untouched, and the old colocation group is removed
exactly when no remaining table belongs to it. -/
lemma convert_shape (rid sid : Nat) (st : MetadataState) :
    (ConvertToReferenceTableMetadata rid sid st).partitions =
      (st.partitions.filter (fun r => r.logicalRelid ≠ rid)) ++
        [⟨rid, DISTRIBUTE_BY_NONE, (CreateReferenceTableColocationId st).1,
          REPLICATION_MODEL_2PC⟩] ∧
    (ConvertToReferenceTableMetadata rid sid st).shards =
      (st.shards.filter (fun s => s.shardId ≠ sid)) ++
        [⟨sid, rid, ShardStorageType rid⟩] ∧
    (ConvertToReferenceTableMetadata rid sid st).placements = st.placements := by
  obtain ⟨hp, hs, hpl, hw⟩ := createRefCid_frame st
  refine ⟨?_, ?_, ?_⟩ <;>
    simp [ConvertToReferenceTableMetadata, DeletePartitionRow,
      DeleteColocationGroupIfNoTablesBelong, DeleteShardRow,
      InsertIntoPgDistPartition, InsertShardRow, hp, hs, hpl, apply_ite]

/-- The colocation table after the rewrite is whatever
`DeleteColocationGroupIfNoTablesBelong` left (the later shard/partition
inserts never touch it). -/
lemma convert_colocations (rid sid : Nat) (st : MetadataState) :
    (ConvertToReferenceTableMetadata rid sid st).colocations =
      (DeleteColocationGroupIfNoTablesBelong (TableColocationId st rid)
        (DeletePartitionRow rid (CreateReferenceTableColocationId st).2)).colocations := by
  simp [ConvertToReferenceTableMetadata, DeleteShardRow,
    InsertIntoPgDistPartition, InsertShardRow]

/-- C3: the promotion's metadata rewrite performs exactly the listed
mutations as one unit (it is a single pure state transformer, running
inside the coordinator transaction, so an abort leaves the input state):
the table's old partition row is deleted and exactly one new partition
row is inserted marking it reference-distributed (`DISTRIBUTE_BY_NONE`)
under the reference-table colocation group; the old colocation group is
deleted exactly when no table remains in it; the old shard row is deleted
and one new shard row is inserted carrying the same, unchanged shard id;
partition rows of every other table and all placement rows are untouched,
and afterwards the table has exactly one partition row while every other
table's partition-row count is unchanged (never zero or two for a table
that had one). -/
theorem convert_metadata_rewrite (rid sid : Nat) (st : MetadataState) :
    ((ConvertToReferenceTableMetadata rid sid st).partitions.filter
        (fun r => r.logicalRelid = rid)) =
      [⟨rid, DISTRIBUTE_BY_NONE, (CreateReferenceTableColocationId st).1,
        REPLICATION_MODEL_2PC⟩] ∧
    (∀ r : PartitionRow, r.logicalRelid ≠ rid →
      (r ∈ (ConvertToReferenceTableMetadata rid sid st).partitions ↔
        r ∈ st.partitions)) ∧
    ((ConvertToReferenceTableMetadata rid sid st).shards.filter
        (fun s => s.shardId = sid)) = [⟨sid, rid, ShardStorageType rid⟩] ∧
    (∀ s : ShardRow, s.shardId ≠ sid →
      (s ∈ (ConvertToReferenceTableMetadata rid sid st).shards ↔
        s ∈ st.shards)) ∧
    ((∀ r ∈ st.partitions, r.logicalRelid ≠ rid →
        r.colocationid ≠ TableColocationId st rid) →
      ∀ c ∈ (ConvertToReferenceTableMetadata rid sid st).colocations,
        c.colocationid ≠ TableColocationId st rid) ∧
    ((∃ r ∈ st.partitions, r.logicalRelid ≠ rid ∧
        r.colocationid = TableColocationId st rid) →
      (ConvertToReferenceTableMetadata rid sid st).colocations =
        (CreateReferenceTableColocationId st).2.colocations) ∧
    (∀ t : Nat, ((ConvertToReferenceTableMetadata rid sid st).partitions.filter
        (fun r => r.logicalRelid = t)).length =
      if t = rid then 1
      else (st.partitions.filter (fun r => r.logicalRelid = t)).length) ∧
    (ConvertToReferenceTableMetadata rid sid st).placements = st.placements := by
  obtain ⟨hpart, hshard, hplace⟩ := convert_shape rid sid st
  have hdelpart : (DeletePartitionRow rid
      (CreateReferenceTableColocationId st).2).partitions =
        st.partitions.filter (fun r => r.logicalRelid ≠ rid) := by
    rw [DeletePartitionRow, (createRefCid_frame st).1]
  have hdelcolo : (DeletePartitionRow rid
      (CreateReferenceTableColocationId st).2).colocations =
        (CreateReferenceTableColocationId st).2.colocations := rfl
  refine ⟨?_, ?_, ?_, ?_, ?_, ?_, ?_, hplace⟩
  · rw [hpart, List.filter_append, filter_key_del PartitionRow.logicalRelid rid]
    simp
  · intro r hr
    rw [hpart]
    simp only [List.mem_append, List.mem_singleton]
    constructor
    · intro h
      rcases h with h | h
      · exact ((mem_filter_key_ne PartitionRow.logicalRelid rid _ r hr).mp h)
      · exact absurd (congrArg PartitionRow.logicalRelid h) hr
    · intro h
      exact Or.inl ((mem_filter_key_ne PartitionRow.logicalRelid rid _ r hr).mpr h)
  · rw [hshard, List.filter_append, filter_key_del ShardRow.shardId sid]
    simp
  · intro s hs
    rw [hshard]
    simp only [List.mem_append, List.mem_singleton]
    constructor
    · intro h
      rcases h with h | h
      · exact ((mem_filter_key_ne ShardRow.shardId sid _ s hs).mp h)
      · exact absurd (congrArg ShardRow.shardId h) hs
    · intro h
      exact Or.inl ((mem_filter_key_ne ShardRow.shardId sid _ s hs).mpr h)
  · intro hnone c hc
    rw [convert_colocations] at hc
    have hany : ((DeletePartitionRow rid
        (CreateReferenceTableColocationId st).2).partitions.any
          (fun r => r.colocationid = TableColocationId st rid)) = false := by
      rw [hdelpart, List.any_eq_false]
      intro r hr
      have hr2 := List.mem_filter.mp hr
      simp only [decide_eq_true_eq] at hr2
      simp only [decide_eq_true_eq]
      exact hnone r hr2.1 hr2.2
    rw [DeleteColocationGroupIfNoTablesBelong, hany] at hc
    simp only [Bool.false_eq_true, if_false] at hc
    rw [hdelcolo] at hc
    have := List.mem_filter.mp hc
    simpa using this.2
  · intro hsome
    obtain ⟨r, hr, h1, h2⟩ := hsome
    rw [convert_colocations]
    have hany : ((DeletePartitionRow rid
        (CreateReferenceTableColocationId st).2).partitions.any
          (fun r => r.colocationid = TableColocationId st rid)) = true := by
      rw [hdelpart, List.any_eq_true]
      refine ⟨r, ?_, by simpa using h2⟩
      exact List.mem_filter.mpr ⟨hr, by simpa using h1⟩
    rw [DeleteColocationGroupIfNoTablesBelong, hany]
    simp only [if_true]
    exact hdelcolo
  · intro t
    by_cases ht : t = rid
    · rw [ht, hpart, List.filter_append, filter_key_del PartitionRow.logicalRelid rid]
      simp
    · rw [hpart, List.filter_append,
        filter_key_other PartitionRow.logicalRelid rid t ht]
      have hne2 : ¬ rid = t := fun hc => ht hc.symm
      have hnil : ([(⟨rid, DISTRIBUTE_BY_NONE, (CreateReferenceTableColocationId st).1,
          REPLICATION_MODEL_2PC⟩ : PartitionRow)].filter
            (fun r => r.logicalRelid = t)) = [] := by
        simp [hne2]
      rw [hnil]
      simp [ht]

/-- Witness for C3 at a concrete state: promoting relation 10 (shard 100)
leaves exactly one partition row for 10 under the fresh reference
colocation group 5, deletes the now-empty old group 4, and keeps
placements untouched. -/
theorem convert_metadata_rewrite_witness :
    ((ConvertToReferenceTableMetadata 10 100 exSt).partitions.filter
        (fun r => r.logicalRelid = 10)) =
      [⟨10, DISTRIBUTE_BY_NONE, (CreateReferenceTableColocationId exSt).1,
        REPLICATION_MODEL_2PC⟩] ∧
    (∀ c ∈ (ConvertToReferenceTableMetadata 10 100 exSt).colocations,
      c.colocationid ≠ TableColocationId exSt 10) ∧
    ((ConvertToReferenceTableMetadata 10 100 exSt).shards.filter
        (fun s => s.shardId = 100)) = [⟨100, 10, ShardStorageType 10⟩] ∧
    (ConvertToReferenceTableMetadata 10 100 exSt).placements = exSt.placements :=
  ⟨(convert_metadata_rewrite 10 100 exSt).1,
   (convert_metadata_rewrite 10 100 exSt).2.2.2.2.1 (by decide),
   (convert_metadata_rewrite 10 100 exSt).2.2.1,
   (convert_metadata_rewrite 10 100 exSt).2.2.2.2.2.2.2⟩

/-! ### Fleet-wide replication (C4) -/

lemma tableColocationId_congr {st1 st2 : MetadataState}
    (h : st1.partitions = st2.partitions) (rid : Nat) :
    TableColocationId st1 rid = TableColocationId st2 rid := by
  unfold TableColocationId
  rw [h]

lemma tableColocationId_of_find {st : MetadataState} {rid : Nat}
    {row : PartitionRow}
    (h : st.partitions.find? (fun r => r.logicalRelid = rid) = some row) :
    TableColocationId st rid = row.colocationid := by
  unfold TableColocationId
  rw [h]

lemma ral_cons_noshard {copyOk : String → Nat → Bool} {rid : Nat}
    {rest : List Nat} {c : Nat} {st : MetadataState}
    (hl : LoadShardIntervalList st rid = []) :
    ReplicateAllLoop copyOk (rid :: rest) c st =
      (⟨some (CitusError.missingShard rid), st, []⟩, c) := by
  simp [ReplicateAllLoop, hl]

lemma ral_cons_err {copyOk : String → Nat → Bool} {rid : Nat}
    {rest : List Nat} {c : Nat} {st : MetadataState} {si : ShardRow}
    {tl : List ShardRow} {e : CitusError}
    (hl : LoadShardIntervalList st rid = si :: tl)
    (he : (ReplicateShardToAllWorkers copyOk si st).err = some e) :
    ReplicateAllLoop copyOk (rid :: rest) c st =
      (⟨some e, (ReplicateShardToAllWorkers copyOk si st).state,
        (ReplicateShardToAllWorkers copyOk si st).events⟩, c) := by
  simp [ReplicateAllLoop, hl, he]

lemma ral_cons_ok {copyOk : String → Nat → Bool} {rid : Nat}
    {rest : List Nat} {c : Nat} {st : MetadataState} {si : ShardRow}
    {tl : List ShardRow}
    (hl : LoadShardIntervalList st rid = si :: tl)
    (he : (ReplicateShardToAllWorkers copyOk si st).err = none) :
    ReplicateAllLoop copyOk (rid :: rest) c st =
      (⟨(ReplicateAllLoop copyOk rest
            (if c = INVALID_COLOCATION_ID then
              TableColocationId (ReplicateShardToAllWorkers copyOk si st).state rid
            else c)
            (ReplicateShardToAllWorkers copyOk si st).state).1.err,
        (ReplicateAllLoop copyOk rest
            (if c = INVALID_COLOCATION_ID then
              TableColocationId (ReplicateShardToAllWorkers copyOk si st).state rid
            else c)
            (ReplicateShardToAllWorkers copyOk si st).state).1.state,
        (ReplicateShardToAllWorkers copyOk si st).events ++
          (ReplicateAllLoop copyOk rest
            (if c = INVALID_COLOCATION_ID then
              TableColocationId (ReplicateShardToAllWorkers copyOk si st).state rid
            else c)
            (ReplicateShardToAllWorkers copyOk si st).state).1.events⟩,
       (ReplicateAllLoop copyOk rest
          (if c = INVALID_COLOCATION_ID then
            TableColocationId (ReplicateShardToAllWorkers copyOk si st).state rid
          else c)
          (ReplicateShardToAllWorkers copyOk si st).state).2) := by
  simp [ReplicateAllLoop, hl, he]

/-- The per-table loop never emits a replication-factor update. -/
lemma replicateAllLoop_no_factor (copyOk : String → Nat → Bool) :
    ∀ (rids : List Nat) (c : Nat) (st : MetadataState),
      ∀ ev ∈ (ReplicateAllLoop copyOk rids c st).1.events,
        isReplicationFactorUpdate ev = false := by
  intro rids
  induction rids with
  | nil => intro c st ev hev; simp [ReplicateAllLoop] at hev
  | cons rid rest ih =>
    intro c st ev hev
    cases hl : LoadShardIntervalList st rid with
    | nil => rw [ral_cons_noshard hl] at hev; simp at hev
    | cons si tl =>
      cases he : (ReplicateShardToAllWorkers copyOk si st).err with
      | some e =>
        rw [ral_cons_err hl he] at hev
        exact RSTAW_no_factor_events copyOk si st ev hev
      | none =>
        rw [ral_cons_ok hl he] at hev
        rcases List.mem_append.mp hev with h | h
        · exact RSTAW_no_factor_events copyOk si st ev h
        · exact ih _ _ ev h

/-- Once latched, the current colocation id never changes. -/
lemma replicateAllLoop_ccid_stable (copyOk : String → Nat → Bool) :
    ∀ (rids : List Nat) (c : Nat) (st : MetadataState),
      c ≠ INVALID_COLOCATION_ID →
      (ReplicateAllLoop copyOk rids c st).2 = c := by
  intro rids
  induction rids with
  | nil => intro c st _; rfl
  | cons rid rest ih =>
    intro c st hc
    cases hl : LoadShardIntervalList st rid with
    | nil => rw [ral_cons_noshard hl]
    | cons si tl =>
      cases he : (ReplicateShardToAllWorkers copyOk si st).err with
      | some e => rw [ral_cons_err hl he]
      | none =>
        rw [ral_cons_ok hl he]
        rw [if_neg hc]
        exact ih _ _ hc

/-- The unique partition row of a reference table listed by
`ReferenceTableList` is the one `find?` returns. -/
lemma refTable_find {st : MetadataState} {rid : Nat}
    (hnd : (st.partitions.map PartitionRow.logicalRelid).Nodup)
    (hmem : rid ∈ ReferenceTableList st) :
    ∃ row, st.partitions.find? (fun r => r.logicalRelid = rid) = some row ∧
      row.partmethod = DISTRIBUTE_BY_NONE ∧ row.logicalRelid = rid := by
  obtain ⟨row0, hrow0, hrel⟩ := List.mem_map.mp hmem
  have hrow0m := List.mem_filter.mp hrow0
  have hsome : (st.partitions.find? (fun r => r.logicalRelid = rid)).isSome := by
    rw [List.find?_isSome]
    exact ⟨row0, hrow0m.1, by simp [hrel]⟩
  obtain ⟨row, hrow⟩ := Option.isSome_iff_exists.mp hsome
  have hrowm := List.mem_of_find?_eq_some hrow
  have hrowp := List.find?_some hrow
  simp only [decide_eq_true_eq] at hrowp
  have heq : row = row0 := by
    apply List.inj_on_of_nodup_map hnd hrowm hrow0m.1
    show row.logicalRelid = row0.logicalRelid
    rw [hrowp, hrel]
  refine ⟨row, hrow, ?_, hrowp⟩
  rw [heq]
  simpa using hrow0m.2

/-- After a successful first iteration with valid colocation ids, the
latched colocation id is never `INVALID_COLOCATION_ID`. -/
lemma replicateAllLoop_sets_ccid {copyOk : String → Nat → Bool} {rid : Nat}
    {rest : List Nat} {st : MetadataState} {row : PartitionRow}
    (hfind : st.partitions.find? (fun r => r.logicalRelid = rid) = some row)
    (hcid : row.colocationid ≠ INVALID_COLOCATION_ID)
    (herr : (ReplicateAllLoop copyOk (rid :: rest)
      INVALID_COLOCATION_ID st).1.err = none) :
    (ReplicateAllLoop copyOk (rid :: rest) INVALID_COLOCATION_ID st).2 ≠
      INVALID_COLOCATION_ID := by
  cases hl : LoadShardIntervalList st rid with
  | nil => rw [ral_cons_noshard hl] at herr; simp at herr
  | cons si tl =>
    cases he : (ReplicateShardToAllWorkers copyOk si st).err with
    | some e => rw [ral_cons_err hl he] at herr; simp at herr
    | none =>
      rw [ral_cons_ok hl he]
      have hpf : (ReplicateShardToAllWorkers copyOk si st).state.partitions =
          st.partitions := (RSTAW_frame copyOk si st).1
      have hc1 : TableColocationId
          (ReplicateShardToAllWorkers copyOk si st).state rid ≠
            INVALID_COLOCATION_ID := by
        rw [tableColocationId_congr hpf, tableColocationId_of_find hfind]
        exact hcid
      rw [if_pos rfl]
      rw [replicateAllLoop_ccid_stable copyOk rest _ _ hc1]
      exact hc1

/-- A fully healthy fleet makes the per-table loop a complete no-op
(no error, unchanged state, empty trace). -/
lemma replicateAllLoop_healthy (copyOk : String → Nat → Bool)
    (st : MetadataState) (hnd : (st.placements.map pKey).Nodup) :
    ∀ (rids : List Nat) (c : Nat),
      (∀ rid ∈ rids, ∃ si ∈ st.shards,
        (LoadShardIntervalList st rid).head? = some si ∧
        (∃ p ∈ st.placements, p.shardId = si.shardId ∧
          p.shardState = FILE_FINALIZED) ∧
        ∀ w ∈ st.workers,
          HasFinalizedPlacement st si.shardId w.workerName w.workerPort) →
      (ReplicateAllLoop copyOk rids c st).1 = ⟨none, st, []⟩ := by
  intro rids
  induction rids with
  | nil => intro c _; rfl
  | cons rid rest ih =>
    intro c h
    obtain ⟨si, _, hhead, hsome, hall⟩ := h rid (List.mem_cons_self rid rest)
    cases hl : LoadShardIntervalList st rid with
    | nil => rw [hl] at hhead; simp at hhead
    | cons a tl =>
      rw [hl] at hhead
      have ha : a = si := by simpa using hhead
      have hnoop : ReplicateShardToAllWorkers copyOk a st = ⟨none, st, []⟩ := by
        rw [ha]
        exact RSTAW_noop copyOk si st hnd hsome hall
      rw [ral_cons_ok hl (by rw [hnoop])]
      rw [hnoop]
      have hrec := ih (if c = INVALID_COLOCATION_ID then
        TableColocationId st rid else c) (fun r hr => h r (List.mem_cons_of_mem _ hr))
      simp [hrec]

/-- C4: a run of `ReplicateAllReferenceTablesToAllNodes` over at least
one reference table that succeeds updates the reference colocation
group's replication factor to the current worker count exactly once,
as the last event — after all shard copies, however many reference
tables exist; and with every placement already healthy the run succeeds
with zero copy operations while the factor is still updated at most
once.  Hypotheses: at least one reference table; partition rows are
unique per table; reference tables carry a valid colocation id (they
always do — they are created inside a colocation group). -/
theorem replicateAll_updates_factor_once (copyOk : String → Nat → Bool)
    (st : MetadataState)
    (href : ReferenceTableList st ≠ [])
    (hnd : (st.partitions.map PartitionRow.logicalRelid).Nodup)
    (hvalid : ∀ r ∈ st.partitions, r.partmethod = DISTRIBUTE_BY_NONE →
      r.colocationid ≠ INVALID_COLOCATION_ID)
    (hok : (ReplicateAllReferenceTablesToAllNodes copyOk st).err = none) :
    ((ReplicateAllReferenceTablesToAllNodes copyOk st).events.countP
        isReplicationFactorUpdate) = 1 ∧
    (∃ c, (ReplicateAllReferenceTablesToAllNodes copyOk st).events.getLast? =
      some (Event.updateReplicationFactor c st.workers.length)) ∧
    ((st.placements.map pKey).Nodup →
      (∀ rid ∈ ReferenceTableList st, ∃ si ∈ st.shards,
        (LoadShardIntervalList st rid).head? = some si ∧
        (∃ p ∈ st.placements, p.shardId = si.shardId ∧
          p.shardState = FILE_FINALIZED) ∧
        ∀ w ∈ st.workers,
          HasFinalizedPlacement st si.shardId w.workerName w.workerPort) →
      ∀ ev ∈ (ReplicateAllReferenceTablesToAllNodes copyOk st).events,
        isCopyEvent ev = false) := by
  cases hrefs : ReferenceTableList st with
  | nil => exact absurd hrefs href
  | cons rid rest =>
    have hloop_err : (ReplicateAllLoop copyOk (ReferenceTableList st)
        INVALID_COLOCATION_ID st).1.err = none := by
      cases hre : (ReplicateAllLoop copyOk (ReferenceTableList st)
          INVALID_COLOCATION_ID st).1.err with
      | none => rfl
      | some e =>
        have : (ReplicateAllReferenceTablesToAllNodes copyOk st).err = some e := by
          simp [ReplicateAllReferenceTablesToAllNodes, hre]
        rw [this] at hok
        exact Option.noConfusion hok
    obtain ⟨row, hfind, hmethod, hrel⟩ := refTable_find hnd
      (hrefs ▸ List.mem_cons_self rid rest)
    have hccid : (ReplicateAllLoop copyOk (ReferenceTableList st)
        INVALID_COLOCATION_ID st).2 ≠ INVALID_COLOCATION_ID := by
      rw [hrefs]
      rw [hrefs] at hloop_err
      exact replicateAllLoop_sets_ccid hfind
        (hvalid row (List.mem_of_find?_eq_some hfind) hmethod) hloop_err
    have hred : ReplicateAllReferenceTablesToAllNodes copyOk st =
        ⟨none, UpdateColocationGroupReplicationFactor
          (ReplicateAllLoop copyOk (ReferenceTableList st)
            INVALID_COLOCATION_ID st).2 st.workers.length
          (ReplicateAllLoop copyOk (ReferenceTableList st)
            INVALID_COLOCATION_ID st).1.state,
         (ReplicateAllLoop copyOk (ReferenceTableList st)
            INVALID_COLOCATION_ID st).1.events ++
          [Event.updateReplicationFactor
            (ReplicateAllLoop copyOk (ReferenceTableList st)
              INVALID_COLOCATION_ID st).2 st.workers.length]⟩ := by
      simp [ReplicateAllReferenceTablesToAllNodes, hloop_err, hccid]
    refine ⟨?_, ?_, ?_⟩
    · rw [hred]
      simp only [List.countP_append]
      have hz : ((ReplicateAllLoop copyOk (ReferenceTableList st)
          INVALID_COLOCATION_ID st).1.events.countP
            isReplicationFactorUpdate) = 0 := by
        rw [List.countP_eq_zero]
        intro ev hev
        simp [replicateAllLoop_no_factor copyOk _ _ _ ev hev]
      rw [hz]
      rfl
    · rw [hred]
      exact ⟨_, List.getLast?_concat _⟩
    · intro hndp hhealthy ev hev
      have hloop := replicateAllLoop_healthy copyOk st hndp
        (ReferenceTableList st) INVALID_COLOCATION_ID
        (by rw [hrefs]; exact hhealthy)
      rw [hred] at hev
      rw [hloop] at hev
      simp only [RunResult.events, List.nil_append, List.mem_singleton] at hev
      rw [hev]
      rfl

/-- Witness for C4: two healthy reference tables on one worker — the run
succeeds, performs no copy, and updates the factor exactly once, last. -/
theorem replicateAll_updates_factor_once_witness :
    ((ReplicateAllReferenceTablesToAllNodes exCopyOk exStRefs).events.countP
        isReplicationFactorUpdate) = 1 ∧
    (∃ c, (ReplicateAllReferenceTablesToAllNodes exCopyOk exStRefs).events.getLast? =
      some (Event.updateReplicationFactor c exStRefs.workers.length)) ∧
    (∀ ev ∈ (ReplicateAllReferenceTablesToAllNodes exCopyOk exStRefs).events,
      isCopyEvent ev = false) := by
  have h := replicateAll_updates_factor_once exCopyOk exStRefs (by decide)
    (by decide) (by decide) (by decide)
  refine ⟨h.1, h.2.1, h.2.2 (by decide) ?_⟩
  intro rid hrid
  have hrid2 : rid = 30 ∨ rid = 31 := by
    have he : ReferenceTableList exStRefs = [30, 31] := by decide
    rw [he] at hrid
    simpa using hrid
  rcases hrid2 with h30 | h31
  · subst h30
    exact ⟨⟨300, 30, 't'⟩, by decide, by decide, by decide, by decide⟩
  · subst h31
    exact ⟨⟨310, 31, 't'⟩, by decide, by decide, by decide, by decide⟩

end Citus
